import Mathlib

/-!
# QR generator: batch naming, filename metadata and the PDF placement grid

A shallow embedding of `Unit2/src/qrService.js` and `Unit2/src/pdfGenerator.js`.

* JavaScript strings are lists of characters (`Str`).
* The numeric argument of `createBatchQR` is a `JSNumber`: the value the two
  relational comparisons of the function see after `ToNumber`.
* The file system, the clock and the libraries (`qrcode`, `path`, `Date`,
  `pdfkit`) are explicit: a `World` value that is passed along, and a
  `Runtime` record of library functions.
-/

namespace QRGen

/-! ## Strings -/

/-- A JavaScript string, as the list of its characters. -/
abbrev Str := List Char

/-- The folder constant `QR_FOLDER = './qr-codes'` (both modules). -/
def QR_FOLDER : Str := ['.', '/', 'q', 'r', '-', 'c', 'o', 'd', 'e', 's']

/-- The extension `'.png'`. -/
def PNG : Str := ['.', 'p', 'n', 'g']

/-- The text `'batch-'`. -/
def BATCH : Str := ['b', 'a', 't', 'c', 'h', '-']

/-- The decimal rendering of a non-negative integer, as the template literal
`${i}` produces it. -/
def decimal (n : Nat) : Str := Nat.toDigits 10 n

/-- The expression `timestamp.replace(/[:.]/g, '-')`: every `:` and every `.`
becomes `-`. -/
def cleanTimestamp (timestamp : Str) : Str :=
  timestamp.map fun c => if c = ':' ∨ c = '.' then '-' else c

/-- The function `createFilename(timestamp, prefix = '')` of `qrService.js`. -/
def createFilename (timestamp : Str) (pre : Str := []) : Str :=
  pre ++ cleanTimestamp timestamp ++ PNG

/-- The template literal `batch-${i}-` built in the loop of `createBatchQR`. -/
def batchPrefix (i : Nat) : Str := BATCH ++ decimal i ++ ['-']

/-! ## Numbers -/

/-- The number a JavaScript value converts to (`ToNumber`): a finite value,
`NaN`, or an infinity. A non-numeric string such as `"x"` converts to `nan`. -/
inductive JSNumber where
  | fin (q : ℚ)
  | nan
  | posInf
  | negInf
  deriving DecidableEq

/-- The comparison `a < b` on numbers; any comparison with `NaN` is false. -/
def JSNumber.lt : JSNumber → JSNumber → Bool
  | .nan, _ => false
  | _, .nan => false
  | .fin a, .fin b => decide (a < b)
  | .fin _, .posInf => true
  | .fin _, .negInf => false
  | .posInf, _ => false
  | .negInf, .negInf => false
  | .negInf, _ => true

/-- The comparison `a > b`, which is `b < a`. -/
def JSNumber.gt (a b : JSNumber) : Bool := JSNumber.lt b a

/-- The comparison `a <= b`; false when either side is `NaN`. -/
def JSNumber.le : JSNumber → JSNumber → Bool
  | .nan, _ => false
  | _, .nan => false
  | .fin a, .fin b => decide (a ≤ b)
  | .fin _, .posInf => true
  | .fin _, .negInf => false
  | .posInf, .posInf => true
  | .posInf, _ => false
  | .negInf, _ => true

/-! ## The world and the libraries -/

/-- The contents of a stored file. -/
abbrev Bytes := List Nat

/-- The library functions the two modules call. -/
structure Runtime where
  /-- The call `QRCode.toBuffer(content, …)`: the PNG bytes of a QR symbol. -/
  toBuffer : Str → Bytes
  /-- The call `path.join(folder, filename)`. -/
  join : Str → Str → Str
  /-- The call `new Date(s).getTime()`: the time value in milliseconds,
  `none` for `NaN` (an invalid date). -/
  dateParse : Str → Option Int
  /-- The call `date.toLocaleString()` on a valid date. -/
  toLocaleString : Int → Str
  /-- The call `date.toLocaleDateString()` on a valid date. -/
  toLocaleDateString : Int → Str
  /-- The number value `parseInt` returns for an integer above `2 ^ 53`,
  which a double cannot always hold exactly. -/
  roundDouble : Nat → JSNumber
  /-- Whether `doc.image` and the two captions of a file draw without
  throwing. -/
  canDraw : Str → Bool

/-- A drawing instruction sent to the PDF document. -/
inductive DocOp where
  | title (fontSize : Nat) (s : Str)
  | addPage
  | image (filepath : Str) (x y size : ℚ)
  | caption (fontSize : Nat) (s : Str) (x y width : ℚ)
  deriving DecidableEq

/-- The clock and the two folders. -/
structure World where
  /-- The successive results of `new Date().toISOString()`. -/
  now : Nat → Str
  /-- How many times the clock has been read. -/
  ticks : Nat
  /-- The time value the clock reads in `pdfGenerator.js`. -/
  today : Int
  /-- The folder `./qr-codes`: `none` when it does not exist, else its files
  by name. -/
  qrFolder : Option (List (Str × Bytes))
  /-- The folder `./pdf-output`, likewise. -/
  pdfFolder : Option (List (Str × List DocOp))

/-- The function `ensureQRDirectory`: create the folder when it is absent. -/
def ensureQRDirectory (w : World) : World :=
  match w.qrFolder with
  | some _ => w
  | none => { w with qrFolder := some [] }

/-- The function `generateTimestamp`: read the clock. -/
def generateTimestamp (w : World) : Str × World :=
  (w.now w.ticks, { w with ticks := w.ticks + 1 })

/-- Write a file into a folder listing, replacing a file of the same name. -/
def writeFile {α : Type} (files : List (Str × α)) (name : Str) (data : α) :
    List (Str × α) :=
  files.filter (fun f => f.1 ≠ name) ++ [(name, data)]

/-- The function `saveQRToFile(buffer, filename)`: the file is written into
`QR_FOLDER` and its path returned. -/
def saveQRToFile (rt : Runtime) (buffer : Bytes) (filename : Str) (w : World) :
    Str × World :=
  (rt.join QR_FOLDER filename,
    { w with qrFolder := some (writeFile (w.qrFolder.getD []) filename buffer) })

/-- A record returned by `createSingleQR` or `createBatchQR`. -/
structure QRRecord where
  timestamp : Str
  filename : Str
  filepath : Str
  batchNumber : Option Nat
  qrData : Option Bytes
  deriving DecidableEq

/-- The function `createSingleQR`. -/
def createSingleQR (rt : Runtime) (w : World) : QRRecord × World :=
  let w1 := ensureQRDirectory w
  let (timestamp, w2) := generateTimestamp w1
  let filename := createFilename timestamp
  let qrBuffer := rt.toBuffer timestamp
  let (filepath, w3) := saveQRToFile rt qrBuffer filename w2
  ({ timestamp := timestamp, filename := filename, filepath := filepath,
     batchNumber := none, qrData := some qrBuffer }, w3)

/-- The body of one iteration of the loop of `createBatchQR`, for the loop
counter `i`: the record pushed and the world afterwards. -/
def batchItem (rt : Runtime) (i : Nat) (w : World) : QRRecord × World :=
  let (timestamp, w1) := generateTimestamp w
  let filename := createFilename timestamp (batchPrefix i)
  let qrBuffer := rt.toBuffer timestamp
  let (filepath, w2) := saveQRToFile rt qrBuffer filename w1
  ({ timestamp := timestamp, filename := filename, filepath := filepath,
     batchNumber := some i, qrData := none }, w2)

/-- The loop `for (let i = …; i <= count; i++)` of `createBatchQR`, from the
counter `i` with the records pushed so far. `fuel` bounds the number of times
the loop condition is evaluated; `none` means the bound was reached. -/
def batchLoop (rt : Runtime) (count : JSNumber) :
    Nat → Nat → World → List QRRecord → Option (List QRRecord × World)
  | 0, _, _, _ => none
  | fuel + 1, i, w, results =>
    if JSNumber.le (.fin i) count then
      let (r, w1) := batchItem rt i w
      batchLoop rt count fuel (i + 1) w1 (results ++ [r])
    else
      some (results, w)

/-- The message of the error `createBatchQR` throws. -/
def COUNT_ERROR : Str := "Count must be between 1 and 100".toList

/-- The function `createBatchQR(count)`. The result is the value returned or
the message of the error thrown, together with the world afterwards; `none`
means the loop did not finish within `fuel` evaluations of its condition. -/
def createBatchQR (rt : Runtime) (fuel : Nat) (count : JSNumber) (w : World) :
    Option (Except Str (List QRRecord) × World) :=
  if JSNumber.lt count (.fin 1) || JSNumber.gt count (.fin 100) then
    some (.error COUNT_ERROR, w)
  else
    match batchLoop rt count fuel 1 (ensureQRDirectory w) [] with
    | none => none
    | some (results, w1) => some (.ok results, w1)

/-- The record the loop of `createBatchQR` builds for the counter `i` when the
clock returns `timestamp`: the record builder that the batch maps over the
index range. -/
def batchRecord (rt : Runtime) (i : Nat) (timestamp : Str) : QRRecord :=
  { timestamp := timestamp
    filename := BATCH ++ decimal i ++ ['-'] ++ cleanTimestamp timestamp ++ PNG
    filepath :=
      rt.join QR_FOLDER (BATCH ++ decimal i ++ ['-'] ++ cleanTimestamp timestamp ++ PNG)
    batchNumber := some i
    qrData := none }

/-! ## pdfGenerator.js: metadata from a filename -/

/-- The call `s.replace(pat, rep)` with a string pattern: the first occurrence
of `pat` in `s`, if any, is replaced by `rep`. -/
def replaceFirst (pat rep : Str) : Str → Str
  | [] => if pat = [] then rep else []
  | c :: t =>
    if pat.isPrefixOf (c :: t) then rep ++ (c :: t).drop pat.length
    else c :: replaceFirst pat rep t

/-- The characters the regular-expression atom `.` does not match: the line
terminators LF, CR, U+2028 and U+2029. -/
def isLineTerminator (c : Char) : Bool :=
  c.toNat = 10 || c.toNat = 13 || c.toNat = 8232 || c.toNat = 8233

/-- The match of `/^batch-(\d+)-(.+)$/` against `s`: the two captures, or
`none` when there is no match. After `batch-` the group `\d+` can only take
the whole run of digits (the next character must be `-`), and `(.+)$` takes
the rest of the string, which must be non-empty and free of line
terminators. -/
def batchMatch (s : Str) : Option (Str × Str) :=
  if BATCH.isPrefixOf s then
    let r := s.drop BATCH.length
    let digits := r.takeWhile Char.isDigit
    match r.dropWhile Char.isDigit with
    | c :: rest =>
      if c = '-' ∧ digits ≠ [] ∧ rest ≠ [] ∧ rest.all (fun x => !isLineTerminator x) then
        some (digits, rest)
      else none
    | [] => none
  else none

/-- The match of `/T(\d{2})-(\d{2})-(\d{2})-(\d{3})Z/` at the very start of
`s`: the replacement text `T$1:$2:$3.$4Z` and what follows the match. -/
def timeMatch (s : Str) : Option (Str × Str) :=
  match s with
  | t :: h1 :: h2 :: a :: m1 :: m2 :: b :: s1 :: s2 :: c :: x1 :: x2 :: x3 :: z :: rest =>
    if t = 'T' ∧ h1.isDigit ∧ h2.isDigit ∧ a = '-' ∧ m1.isDigit ∧ m2.isDigit ∧ b = '-' ∧
        s1.isDigit ∧ s2.isDigit ∧ c = '-' ∧ x1.isDigit ∧ x2.isDigit ∧ x3.isDigit ∧ z = 'Z' then
      some (['T', h1, h2, ':', m1, m2, ':', s1, s2, '.', x1, x2, x3, 'Z'], rest)
    else none
  | _ => none

/-- The expression
`s.replace(/T(\d{2})-(\d{2})-(\d{2})-(\d{3})Z/, 'T$1:$2:$3.$4Z')`: the
leftmost match is rewritten, the rest of the string is kept. -/
def restoreTime : Str → Str
  | [] => []
  | c :: t =>
    match timeMatch (c :: t) with
    | some (r, rest) => r ++ rest
    | none => c :: restoreTime t

/-- The value of a string of decimal digits, most significant digit first. -/
def digitsValue (s : Str) : Nat :=
  s.foldl (fun acc c => 10 * acc + (c.toNat - 48)) 0

/-- The call `parseInt(s)` for a string that starts with neither white space,
a sign nor `0x` (here `s` is always a capture of `\d+`): the value of the
leading digits, `NaN` without any. Above `2 ^ 53` the result is the double
that the engine rounds to. -/
def parseInt (rt : Runtime) (s : Str) : JSNumber :=
  let digits := s.takeWhile Char.isDigit
  if digits = [] then .nan
  else if digitsValue digits ≤ 2 ^ 53 then .fin (digitsValue digits)
  else rt.roundDouble (digitsValue digits)

/-- The field `type` of the metadata. -/
inductive Kind where
  | single
  | batch
  deriving DecidableEq

/-- The object `extractMetadata` returns. -/
structure Metadata where
  type : Kind
  batchNumber : Option JSNumber
  displayTime : Str
  displayName : Str
  deriving DecidableEq

/-- The part of the filename that `extractMetadata` reads the time from: the
second capture for a batch name, else the whole name without `.png`. -/
def timestampPart (filename : Str) : Str :=
  match batchMatch (replaceFirst PNG [] filename) with
  | some (_, part) => part
  | none => replaceFirst PNG [] filename

/-- The `try`/`catch` block that both branches of `extractMetadata` contain:
the separators of the time are restored and the string parsed; an invalid
date throws, and the handler falls back to the filename. -/
def displayTime (rt : Runtime) (part filename : Str) : Str :=
  match rt.dateParse (restoreTime part) with
  | some date => rt.toLocaleString date
  | none => filename

/-- The text `'Batch #'`. -/
def BATCH_NAME : Str := ['B', 'a', 't', 'c', 'h', ' ', '#']

/-- The text `'Single QR'`. -/
def SINGLE_NAME : Str := ['S', 'i', 'n', 'g', 'l', 'e', ' ', 'Q', 'R']

/-- The function `extractMetadata(filename)` of `pdfGenerator.js`. -/
def extractMetadata (rt : Runtime) (filename : Str) : Metadata :=
  let nameWithoutExt := replaceFirst PNG [] filename
  match batchMatch nameWithoutExt with
  | some (batchNumber, part) =>
    { type := .batch
      batchNumber := some (parseInt rt batchNumber)
      displayTime := displayTime rt part filename
      displayName := BATCH_NAME ++ batchNumber }
  | none =>
    { type := .single
      batchNumber := none
      displayTime := displayTime rt nameWithoutExt filename
      displayName := SINGLE_NAME }

/-! ## pdfGenerator.js: listing the images -/

/-- The folder constant `OUTPUT_FOLDER = './pdf-output'`. -/
def OUTPUT_FOLDER : Str := "./pdf-output".toList

/-- The constant `PDF_FILENAME`. -/
def PDF_FILENAME : Str := "qr-codes-collection.pdf".toList

/-- The function `ensureOutputDirectory`: create the folder when it is
absent. -/
def ensureOutputDirectory (w : World) : World :=
  match w.pdfFolder with
  | some _ => w
  | none => { w with pdfFolder := some [] }

/-- The UTF-16 code units of a character. -/
def utf16 (c : Char) : List Nat :=
  if c.toNat < 65536 then [c.toNat]
  else [55296 + (c.toNat - 65536) / 1024, 56320 + (c.toNat - 65536) % 1024]

/-- The UTF-16 code units of a string: what `length` counts and what the
default `sort` compares. -/
def codeUnits (s : Str) : List Nat := s.flatMap utf16

/-- The lexicographic order on sequences of code units. -/
def lexLe : List Nat → List Nat → Bool
  | [], _ => true
  | _ :: _, [] => false
  | a :: as, b :: bs => if a < b then true else if b < a then false else lexLe as bs

/-- The order `Array.prototype.sort()` uses without a comparator: strings
compared by code units. -/
def sortLe (a b : Str) : Prop := lexLe (codeUnits a) (codeUnits b) = true

instance : DecidableRel sortLe := fun a b =>
  inferInstanceAs (Decidable (lexLe (codeUnits a) (codeUnits b) = true))

/-- The test `file.toLowerCase().endsWith('.png')`. Only the letters A to Z
are lowered: no other character lower-cases to one of `.`, `p`, `n`, `g`. -/
def isPngName (file : Str) : Bool :=
  PNG.isSuffixOf (file.map Char.toLower)

/-- The message of the error `fs.readdir` throws for a missing folder. -/
def READDIR_ERROR : Str :=
  "ENOENT: no such file or directory, scandir './qr-codes'".toList

/-- The function `getQRCodeFiles`: the names in `QR_FOLDER` that end in
`.png`, sorted; an error when the folder cannot be read. -/
def getQRCodeFiles (w : World) : Except Str (List Str) :=
  match w.qrFolder with
  | none => .error ("Could not read QR codes directory: ".toList ++ READDIR_ERROR)
  | some files =>
    .ok (((files.map Prod.fst).filter isPngName).insertionSort sortLe)

/-! ## pdfGenerator.js: the grid and the placement loop -/

/-- The page that `pdfkit` provides (`doc.page`, and `doc.y` once the title
is written) and the layout constants of `generateQRCodesPDF`. The two cell
sizes `qrSize + spacing` and `qrSize + textHeight + spacing` are taken
positive. -/
structure Geometry where
  /-- The value of `doc.page.width`. -/
  width : ℚ
  /-- The value of `doc.page.height`. -/
  height : ℚ
  /-- The value of `doc.page.margins.left`. -/
  left : ℚ
  /-- The value of `doc.page.margins.right`. -/
  right : ℚ
  /-- The value of `doc.page.margins.top`. -/
  top : ℚ
  /-- The value of `doc.page.margins.bottom`. -/
  bottom : ℚ
  /-- The value of `doc.y` after the title section. -/
  titleBottom : ℚ
  titleHeight : ℚ
  qrSize : ℚ
  spacing : ℚ
  textHeight : ℚ

/-- The geometry of the source: a page of the given size with `margin: 30`,
`titleHeight = 40`, `qrSize = 80`, `spacing = 10`, `textHeight = 16`. -/
def sourceGeometry (width height titleBottom : ℚ) : Geometry :=
  { width := width, height := height, left := 30, right := 30, top := 30, bottom := 30,
    titleBottom := titleBottom, titleHeight := 40, qrSize := 80, spacing := 10,
    textHeight := 16 }

/-- The page size `pdfkit` gives for `size: 'A4'`: 595.28 by 841.89 points. -/
def A4 (titleBottom : ℚ) : Geometry := sourceGeometry (59528 / 100) (84189 / 100) titleBottom

namespace Geometry

/-- The constant `pageWidth`. -/
def pageWidth (g : Geometry) : ℚ := g.width - g.left - g.right

/-- The constant `pageHeight`. -/
def pageHeight (g : Geometry) : ℚ := g.height - g.top - g.bottom

/-- The constant `availableHeight`. -/
def availableHeight (g : Geometry) : ℚ := g.pageHeight - g.titleHeight

/-- The constant `itemsPerRow = Math.floor(pageWidth / (qrSize + spacing))`. -/
def itemsPerRow (g : Geometry) : Int := ⌊g.pageWidth / (g.qrSize + g.spacing)⌋

/-- The constant `itemHeight`. -/
def itemHeight (g : Geometry) : ℚ := g.qrSize + g.textHeight + g.spacing

/-- The constant `rowsPerPage = Math.floor(availableHeight / itemHeight)`. -/
def rowsPerPage (g : Geometry) : Int := ⌊g.availableHeight / g.itemHeight⌋

/-- The constant `itemsPerPage`. -/
def itemsPerPage (g : Geometry) : Int := g.itemsPerRow * g.rowsPerPage

end Geometry

/-- The four variables the placement loop updates. -/
structure Cursor where
  currentX : ℚ
  currentY : ℚ
  itemsInCurrentRow : Nat
  itemsInCurrentPage : Nat
  deriving DecidableEq

/-- The cursor before the loop: the left margin, a small gap under the title,
and both counters zero. -/
def freshCursor (g : Geometry) : Cursor :=
  { currentX := g.left, currentY := g.titleBottom + 10,
    itemsInCurrentRow := 0, itemsInCurrentPage := 0 }

/-- The first test of the loop body, "do we need a new page": the cursor
after it and whether `doc.addPage()` was called. -/
def newPageCheck (g : Geometry) (c : Cursor) : Cursor × Bool :=
  if (c.itemsInCurrentPage : Int) ≥ g.itemsPerPage then
    ({ currentX := g.left, currentY := g.top,
       itemsInCurrentRow := 0, itemsInCurrentPage := 0 }, true)
  else (c, false)

/-- The second test of the loop body, "do we need a new row". -/
def newRowCheck (g : Geometry) (c : Cursor) : Cursor :=
  if (c.itemsInCurrentRow : Int) ≥ g.itemsPerRow then
    { c with currentX := g.left, currentY := c.currentY + g.itemHeight,
             itemsInCurrentRow := 0 }
  else c

/-- The instructions of the `try` block for one file at the cursor `c`: the
image and its two captions. The second caption is the display time unless it
is longer than 20 code units, in which case the display name is repeated. -/
def drawOps (rt : Runtime) (g : Geometry) (c : Cursor) (filename : Str) : List DocOp :=
  let filepath := rt.join QR_FOLDER filename
  let metadata := extractMetadata rt filename
  let textY := c.currentY + g.qrSize + 1
  [ .image filepath c.currentX c.currentY g.qrSize,
    .caption 6 metadata.displayName c.currentX textY g.qrSize,
    .caption 5
      (if (codeUnits metadata.displayTime).length > 20 then metadata.displayName
       else metadata.displayTime)
      c.currentX (textY + 8) g.qrSize ]

/-- One pass through the body of the placement loop for `filename`: the
cursor afterwards and the instructions sent to the document. A draw that
throws is caught: nothing is drawn and the cursor does not advance. -/
def placeItem (rt : Runtime) (g : Geometry) (c : Cursor) (filename : Str) :
    Cursor × List DocOp :=
  let c1 := (newPageCheck g c).1
  let pageOps := if (newPageCheck g c).2 then [DocOp.addPage] else []
  let c2 := newRowCheck g c1
  if rt.canDraw filename then
    ({ c2 with currentX := c2.currentX + (g.qrSize + g.spacing),
               itemsInCurrentRow := c2.itemsInCurrentRow + 1,
               itemsInCurrentPage := c2.itemsInCurrentPage + 1 },
      pageOps ++ drawOps rt g c2 filename)
  else (c2, pageOps)

/-- The placement loop over the files, from the cursor `c`: for each file in
turn the instructions of its pass, and the final cursor. -/
def placementLoop (rt : Runtime) (g : Geometry) : Cursor → List Str → List (List DocOp) × Cursor
  | c, [] => ([], c)
  | c, filename :: rest =>
    let step := placeItem rt g c filename
    let tail := placementLoop rt g step.1 rest
    (step.2 :: tail.1, tail.2)

/-- The message of the error for an empty folder. -/
def NO_FILES_ERROR : Str := "No QR code files found in the qr-codes directory".toList

/-- The two lines of the title section. -/
def titleOps (rt : Runtime) (w : World) (total : Nat) : List DocOp :=
  [ .title 16 "QR Codes Collection".toList,
    .title 8 ("Generated: ".toList ++ rt.toLocaleDateString w.today ++ " | Total: ".toList ++
      decimal total) ]

/-- The function `generateQRCodesPDF`, for the page and constants gathered in
`g`: the path returned or the message of the error thrown, and the world
afterwards, in which the document written is the list of its drawing
instructions. -/
def generateQRCodesPDF (rt : Runtime) (g : Geometry) (w : World) : Except Str Str × World :=
  let w1 := ensureOutputDirectory w
  match getQRCodeFiles w1 with
  | .error e => (.error e, w1)
  | .ok qrFiles =>
    if qrFiles.length = 0 then (.error NO_FILES_ERROR, w1)
    else
      let outputPath := rt.join OUTPUT_FOLDER PDF_FILENAME
      let pages := (placementLoop rt g (freshCursor g) qrFiles).1
      (.ok outputPath,
        { w1 with pdfFolder := some (writeFile (w1.pdfFolder.getD []) PDF_FILENAME
            (titleOps rt w1 qrFiles.length ++ pages.flatten)) })

/-! ## Well-formed instants -/

/-- The seventeen digits of an instant written `YYYY-MM-DDTHH:MM:SS.mmmZ`. -/
structure IsoDigits where
  y1 : Char
  y2 : Char
  y3 : Char
  y4 : Char
  mo1 : Char
  mo2 : Char
  d1 : Char
  d2 : Char
  h1 : Char
  h2 : Char
  mi1 : Char
  mi2 : Char
  s1 : Char
  s2 : Char
  ms1 : Char
  ms2 : Char
  ms3 : Char

namespace IsoDigits

/-- Every one of the seventeen characters is a decimal digit. -/
def wellFormed (t : IsoDigits) : Prop :=
  (t.y1.isDigit = true ∧ t.y2.isDigit = true ∧ t.y3.isDigit = true ∧ t.y4.isDigit = true) ∧
  (t.mo1.isDigit = true ∧ t.mo2.isDigit = true ∧ t.d1.isDigit = true ∧ t.d2.isDigit = true) ∧
  (t.h1.isDigit = true ∧ t.h2.isDigit = true ∧ t.mi1.isDigit = true ∧ t.mi2.isDigit = true) ∧
  (t.s1.isDigit = true ∧ t.s2.isDigit = true) ∧
  (t.ms1.isDigit = true ∧ t.ms2.isDigit = true ∧ t.ms3.isDigit = true)

instance (t : IsoDigits) : Decidable t.wellFormed := by
  unfold wellFormed; infer_instance

/-- The date part `YYYY-MM-DD`. -/
def date (t : IsoDigits) : Str :=
  [t.y1, t.y2, t.y3, t.y4, '-', t.mo1, t.mo2, '-', t.d1, t.d2]

/-- The instant as `toISOString` writes it: `YYYY-MM-DDTHH:MM:SS.mmmZ`. -/
def toISOString (t : IsoDigits) : Str :=
  t.date ++ ['T', t.h1, t.h2, ':', t.mi1, t.mi2, ':', t.s1, t.s2, '.', t.ms1, t.ms2, t.ms3, 'Z']

/-- The instant as it stands in a filename: `YYYY-MM-DDTHH-MM-SS-mmmZ`. -/
def dashed (t : IsoDigits) : Str :=
  t.date ++ ['T', t.h1, t.h2, '-', t.mi1, t.mi2, '-', t.s1, t.s2, '-', t.ms1, t.ms2, t.ms3, 'Z']

end IsoDigits

/-- The instant `2024-01-01T12:00:00.000Z`. -/
def demoInstant : IsoDigits :=
  { y1 := '2', y2 := '0', y3 := '2', y4 := '4', mo1 := '0', mo2 := '1', d1 := '0', d2 := '1',
    h1 := '1', h2 := '2', mi1 := '0', mi2 := '0', s1 := '0', s2 := '0',
    ms1 := '0', ms2 := '0', ms3 := '0' }

/-- The batch-name form of a name without its extension: `batch-`, then one
or more decimal digits, then `-`, then one or more characters, each of which
satisfies `allowed`. -/
def IsBatchStem (allowed : Char → Bool) (s : Str) : Prop :=
  ∃ digits rest, s = BATCH ++ digits ++ '-' :: rest ∧ digits ≠ [] ∧
    (∀ x ∈ digits, x.isDigit = true) ∧ rest ≠ [] ∧ ∀ x ∈ rest, allowed x = true

/-! ## Instants as times -/

/-- The strict order of the default `sort`: `a` comes before `b`. -/
def precedes (a b : Str) : Prop := sortLe a b ∧ ¬ sortLe b a

instance : DecidableRel precedes := fun a b =>
  inferInstanceAs (Decidable (sortLe a b ∧ ¬ sortLe b a))

/-- Whether the year `y` of the Gregorian calendar is a leap year. -/
def isLeapYear (y : Nat) : Bool := y % 4 = 0 && (y % 100 ≠ 0 || y % 400 = 0)

/-- The number of days of the month `m` (1 to 12) of the year `y`. -/
def daysInMonth (y m : Nat) : Nat :=
  if m = 2 then (if isLeapYear y then 29 else 28)
  else if m = 4 ∨ m = 6 ∨ m = 9 ∨ m = 11 then 30
  else 31

/-- The number of days of the year `y` before its month `m`. -/
def daysBeforeMonth (y m : Nat) : Nat :=
  ((List.range (m - 1)).map fun k => daysInMonth y (k + 1)).sum

/-- The number of days from the first of January of the year 0 to the first
of January of the year `y`. -/
def daysBeforeYear (y : Nat) : Nat :=
  365 * y + (y + 3) / 4 - (y + 99) / 100 + (y + 399) / 400

namespace IsoDigits

/-- The year. -/
def year (t : IsoDigits) : Nat := digitsValue [t.y1, t.y2, t.y3, t.y4]

/-- The month. -/
def month (t : IsoDigits) : Nat := digitsValue [t.mo1, t.mo2]

/-- The day of the month. -/
def day (t : IsoDigits) : Nat := digitsValue [t.d1, t.d2]

/-- The hour. -/
def hour (t : IsoDigits) : Nat := digitsValue [t.h1, t.h2]

/-- The minute. -/
def minute (t : IsoDigits) : Nat := digitsValue [t.mi1, t.mi2]

/-- The second. -/
def second (t : IsoDigits) : Nat := digitsValue [t.s1, t.s2]

/-- The millisecond. -/
def millisecond (t : IsoDigits) : Nat := digitsValue [t.ms1, t.ms2, t.ms3]

/-- The instant is one that `toISOString` writes: seventeen digits that name a
day of the calendar and a time of the day from `00:00:00.000` to
`23:59:59.999`. -/
def valid (t : IsoDigits) : Prop :=
  t.wellFormed ∧ 1 ≤ t.month ∧ t.month ≤ 12 ∧ 1 ≤ t.day ∧ t.day ≤ daysInMonth t.year t.month ∧
    t.hour ≤ 23 ∧ t.minute ≤ 59 ∧ t.second ≤ 59

instance (t : IsoDigits) : Decidable t.valid := by
  unfold valid; infer_instance

/-- The day number of the instant, counted from the first of January of the
year 0. -/
def dayNumber (t : IsoDigits) : Nat :=
  daysBeforeYear t.year + daysBeforeMonth t.year t.month + (t.day - 1)

/-- The time value of the instant: the milliseconds since
`1970-01-01T00:00:00.000Z`, which is day 719528. -/
def timeValue (t : IsoDigits) : Int :=
  ((t.dayNumber : Int) - 719528) * 86400000 + t.hour * 3600000 + t.minute * 60000 +
    t.second * 1000 + t.millisecond

end IsoDigits

/-- The instant `2024-01-01T12:00:00.001Z`, one millisecond after
`demoInstant`. -/
def demoLater : IsoDigits := { demoInstant with ms3 := '1' }

/-! ## Where the images are placed -/

/-- The images of a document in drawing order, each with the index of the
page it is on (the number of `addPage` calls before it, counted from `page`)
and its coordinates. -/
def placements : Nat → List DocOp → List (Str × Nat × ℚ × ℚ)
  | _, [] => []
  | page, .addPage :: ops => placements (page + 1) ops
  | page, .image filepath x y _ :: ops => (filepath, page, x, y) :: placements page ops
  | page, .title _ _ :: ops => placements page ops
  | page, .caption _ _ _ _ _ :: ops => placements page ops

namespace Geometry

end Geometry

/-! ## Sample inputs -/

/-- A sample runtime: `path.join` concatenates with `/`, and the date parser
accepts the one instant `2024-01-01T12:00:00.000Z`. -/
def demoRuntime : Runtime where
  toBuffer := fun content => content.map Char.toNat
  join := fun folder filename => folder ++ ['/'] ++ filename
  dateParse := fun s =>
    if s = "2024-01-01T12:00:00.000Z".toList then some 1704110400000 else none
  toLocaleString := fun t => decimal t.toNat
  toLocaleDateString := fun t => decimal t.toNat
  roundDouble := fun _ => .posInf
  canDraw := fun _ => true

/-- A sample world: the clock always returns the same instant, and neither
folder exists yet. -/
def demoWorld : World where
  now := fun _ => "2024-01-01T12:00:00.000Z".toList
  ticks := 0
  today := 1704110400000
  qrFolder := none
  pdfFolder := none

/-- A sample runtime in which the file `b.png` cannot be drawn. -/
def flakyRuntime : Runtime :=
  { demoRuntime with canDraw := fun f => decide (f ≠ ['b', '.', 'p', 'n', 'g']) }

/-- Three sample filenames: `a.png`, `b.png`, `c.png`. -/
def demoFiles : List Str :=
  [['a', '.', 'p', 'n', 'g'], ['b', '.', 'p', 'n', 'g'], ['c', '.', 'p', 'n', 'g']]

/-! # Theorems -/

/-! ## Decimal renderings -/

theorem digitChar_isDigit (d : Nat) (h : d < 10) : (Nat.digitChar d).isDigit = true := by
  interval_cases d <;> decide

theorem digitChar_value (d : Nat) (h : d < 10) : (Nat.digitChar d).toNat - 48 = d := by
  interval_cases d <;> decide

theorem toDigitsCore_isDigit : ∀ (fuel n : Nat) (acc : List Char),
    (∀ c ∈ acc, c.isDigit = true) → ∀ c ∈ Nat.toDigitsCore 10 fuel n acc, c.isDigit = true := by
  intro fuel
  induction fuel with
  | zero => intro n acc h c hc; simpa [Nat.toDigitsCore] using h c (by simpa [Nat.toDigitsCore] using hc)
  | succ f ih =>
    intro n acc h c hc
    have hd : ∀ x ∈ Nat.digitChar (n % 10) :: acc, x.isDigit = true := by
      intro x hx
      rcases List.mem_cons.mp hx with rfl | hx
      · exact digitChar_isDigit _ (Nat.mod_lt _ (by decide))
      · exact h x hx
    simp only [Nat.toDigitsCore] at hc
    split at hc
    · exact hd c hc
    · exact ih _ _ hd c hc

theorem decimal_isDigit (n : Nat) : ∀ c ∈ decimal n, c.isDigit = true :=
  toDigitsCore_isDigit _ _ [] (by simp)

theorem toDigitsCore_ne_nil : ∀ (fuel n : Nat) (acc : List Char),
    0 < fuel → Nat.toDigitsCore 10 fuel n acc ≠ [] := by
  intro fuel
  induction fuel with
  | zero => intro n acc h; omega
  | succ f ih =>
    intro n acc _
    simp only [Nat.toDigitsCore]
    split
    · simp
    · rename_i hne
      cases f with
      | zero => simp [Nat.toDigitsCore]
      | succ f => exact ih _ _ (by omega)

theorem toDigitsCore_value : ∀ (fuel n : Nat) (acc : List Char), n < fuel →
    List.foldl (fun a c => 10 * a + (c.toNat - 48)) 0 (Nat.toDigitsCore 10 fuel n acc) =
      List.foldl (fun a c => 10 * a + (c.toNat - 48)) n acc := by
  intro fuel
  induction fuel with
  | zero => intro n acc h; omega
  | succ f ih =>
    intro n acc h
    simp only [Nat.toDigitsCore]
    split
    · rename_i h0
      have hn : n % 10 = n := Nat.mod_eq_of_lt (by omega)
      have hv := digitChar_value _ (Nat.mod_lt n (by decide : 0 < 10))
      rw [hn] at hv
      simp only [List.foldl, hn, hv, Nat.mul_zero, Nat.zero_add]
    · rename_i h0
      rw [ih (n / 10) _ (by omega)]
      simp only [List.foldl, digitChar_value _ (Nat.mod_lt n (by decide : 0 < 10))]
      congr 1
      omega

theorem digitsValue_decimal (n : Nat) : digitsValue (decimal n) = n := by
  unfold digitsValue decimal Nat.toDigits
  rw [toDigitsCore_value _ _ _ (Nat.lt_succ_self n)]
  rfl

theorem decimal_ne_nil (n : Nat) : decimal n ≠ [] :=
  toDigitsCore_ne_nil _ _ _ (Nat.succ_pos n)

theorem decimal_injective {i j : Nat} (h : decimal i = decimal j) : i = j := by
  have := congrArg digitsValue h
  simpa [digitsValue_decimal] using this

theorem takeWhile_digits_append (ds : Str) (c : Char) (rest : Str)
    (hds : ∀ x ∈ ds, x.isDigit = true) (hc : c.isDigit = false) :
    (ds ++ c :: rest).takeWhile Char.isDigit = ds := by
  induction ds with
  | nil => simp [List.takeWhile, hc]
  | cons d ds ih =>
    have hd : d.isDigit = true := hds d (List.mem_cons_self _ _)
    simp [List.takeWhile, hd, ih (fun x hx => hds x (List.mem_cons_of_mem _ hx))]

theorem dropWhile_digits_append (ds : Str) (c : Char) (rest : Str)
    (hds : ∀ x ∈ ds, x.isDigit = true) (hc : c.isDigit = false) :
    (ds ++ c :: rest).dropWhile Char.isDigit = c :: rest := by
  induction ds with
  | nil => simp [List.dropWhile, hc]
  | cons d ds ih =>
    have hd : d.isDigit = true := hds d (List.mem_cons_self _ _)
    simp [List.dropWhile, hd, ih (fun x hx => hds x (List.mem_cons_of_mem _ hx))]

theorem batch_filename_index {i j : Nat} {a b : Str}
    (h : BATCH ++ decimal i ++ ['-'] ++ a = BATCH ++ decimal j ++ ['-'] ++ b) : i = j := by
  simp only [List.append_assoc, List.append_cancel_left_eq, List.singleton_append] at h
  have hi := takeWhile_digits_append (decimal i) '-' a (decimal_isDigit i) (by decide)
  have hj := takeWhile_digits_append (decimal j) '-' b (decimal_isDigit j) (by decide)
  rw [h, hj] at hi
  exact (decimal_injective hi).symm

/-! ## The loop of `createBatchQR` -/

theorem batchItem_fst (rt : Runtime) (i : Nat) (w : World) :
    (batchItem rt i w).1 = batchRecord rt i (w.now w.ticks) := by
  simp [batchItem, batchRecord, generateTimestamp, saveQRToFile, createFilename, batchPrefix]

theorem batchItem_now (rt : Runtime) (i : Nat) (w : World) :
    (batchItem rt i w).2.now = w.now := rfl

theorem batchItem_ticks (rt : Runtime) (i : Nat) (w : World) :
    (batchItem rt i w).2.ticks = w.ticks + 1 := rfl

theorem batchLoop_fin (rt : Runtime) (q : ℚ) (m : Nat) (hlo : (m : ℚ) ≤ q) (hhi : q < m + 1) :
    ∀ (r fuel i : Nat) (w : World) (acc : List QRRecord), i + r = m + 1 → r < fuel →
      ∃ w1, batchLoop rt (.fin q) fuel i w acc =
          some (acc ++ (List.range r).map (fun k => batchRecord rt (i + k) (w.now (w.ticks + k))), w1)
        ∧ w1.now = w.now ∧ w1.ticks = w.ticks + r := by
  intro r
  induction r with
  | zero =>
    intro fuel i w acc hi hf
    obtain ⟨f, rfl⟩ : ∃ f, fuel = f + 1 := ⟨fuel - 1, by omega⟩
    have hgt : ¬ ((i : ℚ) ≤ q) := by
      have : (i : ℚ) = m + 1 := by
        have : i = m + 1 := by omega
        subst this; push_cast; ring
      rw [this]; exact not_le.mpr hhi
    exact ⟨w, by simp [batchLoop, JSNumber.le, hgt], rfl, rfl⟩
  | succ r ih =>
    intro fuel i w acc hi hf
    obtain ⟨f, rfl⟩ : ∃ f, fuel = f + 1 := ⟨fuel - 1, by omega⟩
    have hle : (i : ℚ) ≤ q := by
      have : (i : ℚ) ≤ (m : ℚ) := by exact_mod_cast (by omega : i ≤ m)
      exact le_trans this hlo
    obtain ⟨w1, h1, h2, h3⟩ := ih f (i + 1) (batchItem rt i w).2 (acc ++ [(batchItem rt i w).1])
      (by omega) (by omega)
    refine ⟨w1, ?_, ?_, ?_⟩
    · simp only [batchLoop, JSNumber.le, hle, decide_True, if_true]
      rw [h1, batchItem_fst, batchItem_now, batchItem_ticks]
      simp [List.range_succ_eq_map, List.map_map, Function.comp_def, Nat.add_assoc, Nat.add_comm 1]
    · rw [h2, batchItem_now]
    · rw [h3, batchItem_ticks]; omega

theorem ensureQRDirectory_now (w : World) : (ensureQRDirectory w).now = w.now := by
  unfold ensureQRDirectory; split <;> rfl

theorem ensureQRDirectory_ticks (w : World) : (ensureQRDirectory w).ticks = w.ticks := by
  unfold ensureQRDirectory; split <;> rfl

theorem createBatchQR_of_guard (rt : Runtime) (fuel : Nat) (v : JSNumber) (w : World)
    (h : JSNumber.lt v (.fin 1) = true ∨ JSNumber.gt v (.fin 100) = true) :
    createBatchQR rt fuel v w = some (.error COUNT_ERROR, w) := by
  unfold createBatchQR
  rw [if_pos (by simpa [Bool.or_eq_true] using h)]

theorem createBatchQR_fin (rt : Runtime) (fuel : Nat) (q : ℚ) (w : World)
    (hlo : 1 ≤ q) (hhi : q ≤ 100) (hfuel : 101 ≤ fuel) :
    ∃ w1, createBatchQR rt fuel (.fin q) w =
      some (.ok ((List.range ⌊q⌋₊).map fun k => batchRecord rt (k + 1) (w.now (w.ticks + k))),
        w1) := by
  have h0 : (0 : ℚ) ≤ q := le_trans (by norm_num) hlo
  have hm : ⌊q⌋₊ ≤ 100 := Nat.floor_le_of_le (by exact_mod_cast hhi)
  obtain ⟨w1, h1, -, -⟩ := batchLoop_fin rt q ⌊q⌋₊ (Nat.floor_le h0) (Nat.lt_floor_add_one q)
    ⌊q⌋₊ fuel 1 (ensureQRDirectory w) [] (by omega) (by omega)
  refine ⟨w1, ?_⟩
  unfold createBatchQR
  have hg : (JSNumber.lt (.fin q) (.fin 1) || JSNumber.gt (.fin q) (.fin 100)) = false := by
    simp [JSNumber.lt, JSNumber.gt, hlo, hhi]
  rw [hg, h1]
  simp [ensureQRDirectory_now, ensureQRDirectory_ticks, Nat.add_comm 1]

/-- C1: for an integer `count` with `1 ≤ count ≤ 100` and any clock,
`createBatchQR(count)` returns exactly `count` records; the record at the
1-based position `i` has `batchNumber = i`, carries the `i`-th timestamp read
from the clock, and is named `batch-` ++ decimal `i` ++ `-` ++ that timestamp
with every `:` and `.` replaced by `-` ++ `.png`. The result is the map of the
record builder over the index range, in index order. -/
theorem createBatchQR_records (rt : Runtime) (fuel : Nat) (count : Int) (w : World)
    (hlo : 1 ≤ count) (hhi : count ≤ 100) (hfuel : 101 ≤ fuel) :
    ∃ results w1, createBatchQR rt fuel (.fin count) w = some (.ok results, w1) ∧
      (results.length : Int) = count ∧
      results = (List.range count.toNat).map
        (fun k => batchRecord rt (k + 1) (w.now (w.ticks + k))) ∧
      ∀ i : Nat, 1 ≤ i → (i : Int) ≤ count →
        ∃ r, results[i - 1]? = some r ∧ r.batchNumber = some i ∧
          r.timestamp = w.now (w.ticks + (i - 1)) ∧
          r.filename = BATCH ++ decimal i ++ ['-'] ++ cleanTimestamp r.timestamp ++ PNG := by
  obtain ⟨n, rfl⟩ := Int.eq_ofNat_of_zero_le (le_trans (by decide) hlo)
  obtain ⟨w1, h⟩ := createBatchQR_fin rt fuel ((n : Int) : ℚ) w (by exact_mod_cast hlo)
    (by exact_mod_cast hhi) hfuel
  have hfl : ⌊(((n : Int) : ℚ))⌋₊ = n := by simp
  rw [hfl] at h
  refine ⟨_, w1, h, by simp, by simp, ?_⟩
  intro i hi1 hin
  have hin : i ≤ n := by exact_mod_cast hin
  refine ⟨batchRecord rt i (w.now (w.ticks + (i - 1))), ?_, rfl, rfl, rfl⟩
  rw [List.getElem?_map, List.getElem?_range (by omega)]
  simp [show i - 1 + 1 = i by omega]

theorem createBatchQR_int (rt : Runtime) (fuel : Nat) (count : Int) (w : World)
    (hlo : 1 ≤ count) (hhi : count ≤ 100) (hfuel : 101 ≤ fuel) :
    ∃ w1, createBatchQR rt fuel (.fin count) w =
      some (.ok ((List.range count.toNat).map fun k =>
        batchRecord rt (k + 1) (w.now (w.ticks + k))), w1) := by
  obtain ⟨n, rfl⟩ := Int.eq_ofNat_of_zero_le (le_trans (by decide) hlo)
  obtain ⟨w1, h⟩ := createBatchQR_fin rt fuel ((n : Int) : ℚ) w (by exact_mod_cast hlo)
    (by exact_mod_cast hhi) hfuel
  have hfl : ⌊(((n : Int) : ℚ))⌋₊ = n := by simp
  rw [hfl] at h
  exact ⟨w1, h⟩

theorem createBatchQR_records_witness :
    (1 : Int) ≤ 3 ∧ (3 : Int) ≤ 100 ∧ 101 ≤ 101 ∧
      ∃ results w1, createBatchQR demoRuntime 101 (.fin ((3 : Int) : ℚ)) demoWorld =
          some (.ok results, w1) ∧ (results.length : Int) = 3 := by
  refine ⟨by decide, by decide, by decide, ?_⟩
  obtain ⟨results, w1, h, hlen, -⟩ :=
    createBatchQR_records demoRuntime 101 3 demoWorld (by decide) (by decide) (by decide)
  exact ⟨results, w1, h, hlen⟩

/-- C2: for an integer `count` in `[1, 100]` and any timestamps the clock
returns (equal ones and arbitrary strings included), the filenames of the
records `createBatchQR(count)` returns are pairwise distinct: for `i ≠ j`,
`batch-i-` ++ clean(`a`) ++ `.png` differs from `batch-j-` ++ clean(`b`) ++
`.png` whatever the timestamps `a` and `b` are. -/
theorem createBatchQR_filenames_distinct (rt : Runtime) (fuel : Nat) (count : Int) (w : World)
    (hlo : 1 ≤ count) (hhi : count ≤ 100) (hfuel : 101 ≤ fuel) :
    (∃ results w1, createBatchQR rt fuel (.fin count) w = some (.ok results, w1) ∧
      (results.map (fun r => r.filename)).Nodup) ∧
    ∀ (i j : Nat) (a b : Str), i ≠ j →
      createFilename a (batchPrefix i) ≠ createFilename b (batchPrefix j) := by
  have hne : ∀ (i j : Nat) (a b : Str), i ≠ j →
      BATCH ++ decimal i ++ ['-'] ++ (cleanTimestamp a ++ PNG) ≠
        BATCH ++ decimal j ++ ['-'] ++ (cleanTimestamp b ++ PNG) :=
    fun i j a b hij h => hij (batch_filename_index h)
  constructor
  · obtain ⟨w1, h⟩ := createBatchQR_int rt fuel count w hlo hhi hfuel
    refine ⟨_, w1, h, ?_⟩
    rw [List.map_map]
    refine (List.nodup_map_iff_inj_on (List.nodup_range _)).mpr ?_
    intro x _ y _ hxy
    by_contra hne2
    refine hne (x + 1) (y + 1) (w.now (w.ticks + x)) (w.now (w.ticks + y)) (by omega) ?_
    simpa [batchRecord, List.append_assoc] using hxy
  · intro i j a b hij h
    refine hne i j a b hij ?_
    simpa [createFilename, batchPrefix, List.append_assoc] using h

theorem createBatchQR_filenames_distinct_witness :
    (1 : Int) ≤ 3 ∧ (3 : Int) ≤ 100 ∧ 101 ≤ 101 ∧
      ∃ results w1, createBatchQR demoRuntime 101 (.fin ((3 : Int) : ℚ)) demoWorld =
          some (.ok results, w1) ∧ (results.map (fun r => r.filename)).Nodup :=
  ⟨by decide, by decide, by decide,
    (createBatchQR_filenames_distinct demoRuntime 101 3 demoWorld (by decide) (by decide)
      (by decide)).1⟩

/-- C3: for an integer `count`, `createBatchQR(count)` fails exactly when
`count < 1` or `count > 100`; the error then carries the message
`Count must be between 1 and 100` and the world is the one before the call
(no folder is created, no file written, no record produced); otherwise the
call returns `count` records. -/
theorem createBatchQR_fails_iff (rt : Runtime) (fuel : Nat) (count : Int) (w : World)
    (hfuel : 101 ≤ fuel) :
    ((∃ e w1, createBatchQR rt fuel (.fin count) w = some (.error e, w1)) ↔
        (count < 1 ∨ 100 < count)) ∧
    ((count < 1 ∨ 100 < count) →
        createBatchQR rt fuel (.fin count) w = some (.error COUNT_ERROR, w)) ∧
    ((1 ≤ count ∧ count ≤ 100) →
        ∃ results w1, createBatchQR rt fuel (.fin count) w = some (.ok results, w1) ∧
          (results.length : Int) = count) := by
  have hfail : (count < 1 ∨ 100 < count) →
      createBatchQR rt fuel (.fin count) w = some (.error COUNT_ERROR, w) := by
    intro h
    apply createBatchQR_of_guard
    rcases h with h | h
    · left; simpa [JSNumber.lt] using (by exact_mod_cast h : ((count : ℚ)) < 1)
    · right; simpa [JSNumber.lt, JSNumber.gt] using (by exact_mod_cast h : (100 : ℚ) < count)
  have hok : (1 ≤ count ∧ count ≤ 100) →
      ∃ results w1, createBatchQR rt fuel (.fin count) w = some (.ok results, w1) ∧
        (results.length : Int) = count := by
    rintro ⟨h1, h2⟩
    obtain ⟨w1, h⟩ := createBatchQR_int rt fuel count w h1 h2 hfuel
    refine ⟨_, w1, h, ?_⟩
    simp only [List.length_map, List.length_range]
    omega
  refine ⟨⟨?_, fun h => ⟨_, _, hfail h⟩⟩, hfail, hok⟩
  rintro ⟨e, w1, he⟩
  by_contra hcon
  obtain ⟨results, w2, h, -⟩ := hok ⟨by omega, by omega⟩
  rw [h] at he
  simp at he

theorem createBatchQR_fails_iff_witness :
    101 ≤ 101 ∧
    createBatchQR demoRuntime 101 (.fin ((0 : Int) : ℚ)) demoWorld =
      some (.error COUNT_ERROR, demoWorld) ∧
    createBatchQR demoRuntime 101 (.fin ((-1 : Int) : ℚ)) demoWorld =
      some (.error COUNT_ERROR, demoWorld) ∧
    createBatchQR demoRuntime 101 (.fin ((101 : Int) : ℚ)) demoWorld =
      some (.error COUNT_ERROR, demoWorld) ∧
    (∃ results w1, createBatchQR demoRuntime 101 (.fin ((1 : Int) : ℚ)) demoWorld =
      some (.ok results, w1) ∧ (results.length : Int) = 1) ∧
    (∃ results w1, createBatchQR demoRuntime 101 (.fin ((100 : Int) : ℚ)) demoWorld =
      some (.ok results, w1) ∧ (results.length : Int) = 100) :=
  ⟨by decide,
    (createBatchQR_fails_iff demoRuntime 101 0 demoWorld (by decide)).2.1 (Or.inl (by decide)),
    (createBatchQR_fails_iff demoRuntime 101 (-1) demoWorld (by decide)).2.1
      (Or.inl (by decide)),
    (createBatchQR_fails_iff demoRuntime 101 101 demoWorld (by decide)).2.1
      (Or.inr (by decide)),
    (createBatchQR_fails_iff demoRuntime 101 1 demoWorld (by decide)).2.2
      ⟨by decide, by decide⟩,
    (createBatchQR_fails_iff demoRuntime 101 100 demoWorld (by decide)).2.2
      ⟨by decide, by decide⟩⟩

theorem createBatchQR_nan (rt : Runtime) (fuel : Nat) (w : World) (hfuel : 1 ≤ fuel) :
    createBatchQR rt fuel .nan w = some (.ok [], ensureQRDirectory w) := by
  obtain ⟨f, rfl⟩ : ∃ f, fuel = f + 1 := ⟨fuel - 1, by omega⟩
  simp [createBatchQR, batchLoop, JSNumber.lt, JSNumber.gt, JSNumber.le]

/-- C4, refuted as stated: the count 2.5 is not rejected, `createBatchQR`
returns two records for it; and a count that converts to `NaN`, as the string
`"x"` does, is not rejected either: the call returns the empty list. -/
theorem createBatchQR_nonInteger_counterexample :
    (∃ results w1, createBatchQR demoRuntime 101 (.fin (5 / 2)) demoWorld =
        some (.ok results, w1) ∧ results.length = 2) ∧
    createBatchQR demoRuntime 101 .nan demoWorld =
      some (.ok [], ensureQRDirectory demoWorld) := by
  refine ⟨?_, createBatchQR_nan _ _ _ (by decide)⟩
  obtain ⟨w1, h⟩ := createBatchQR_fin demoRuntime 101 (5 / 2) demoWorld (by norm_num)
    (by norm_num) (by decide)
  have hfl : ⌊((5 : ℚ) / 2)⌋₊ = 2 := by
    rw [Nat.floor_eq_iff (by norm_num)]; norm_num
  rw [hfl] at h
  exact ⟨_, w1, h, by simp⟩

/-- C4, amended: `createBatchQR` fails with the validation error exactly when
the count compares below 1 or above 100 as a number. A count is not rejected
for not being an integer: one that converts to `NaN` passes the guard and the
call returns the empty list, and a fractional count `q` with `1 ≤ q ≤ 100`
returns the records of the indices `1` to `floor q`. -/
theorem createBatchQR_guard_only (rt : Runtime) (fuel : Nat) (w : World) (hfuel : 101 ≤ fuel) :
    (∀ v : JSNumber, (∃ e w1, createBatchQR rt fuel v w = some (.error e, w1)) ↔
        (JSNumber.lt v (.fin 1) = true ∨ JSNumber.gt v (.fin 100) = true)) ∧
    (∀ v : JSNumber, (JSNumber.lt v (.fin 1) = true ∨ JSNumber.gt v (.fin 100) = true) →
        createBatchQR rt fuel v w = some (.error COUNT_ERROR, w)) ∧
    createBatchQR rt fuel .nan w = some (.ok [], ensureQRDirectory w) ∧
    (∀ q : ℚ, 1 ≤ q → q ≤ 100 →
        ∃ w1, createBatchQR rt fuel (.fin q) w =
          some (.ok ((List.range ⌊q⌋₊).map fun k =>
            batchRecord rt (k + 1) (w.now (w.ticks + k))), w1)) := by
  refine ⟨?_, fun v h => createBatchQR_of_guard rt fuel v w h,
    createBatchQR_nan rt fuel w (by omega),
    fun q h1 h2 => createBatchQR_fin rt fuel q w h1 h2 hfuel⟩
  intro v
  refine ⟨?_, fun h => ⟨_, _, createBatchQR_of_guard rt fuel v w h⟩⟩
  rintro ⟨e, w1, he⟩
  cases v with
  | nan => rw [createBatchQR_nan rt fuel w (by omega)] at he; simp at he
  | posInf => right; rfl
  | negInf => left; rfl
  | fin q =>
    by_contra hcon
    simp only [JSNumber.lt, JSNumber.gt, decide_eq_true_eq, not_or, not_lt] at hcon
    obtain ⟨w2, h⟩ := createBatchQR_fin rt fuel q w hcon.1 hcon.2 hfuel
    rw [h] at he
    simp at he

theorem createBatchQR_guard_only_witness :
    101 ≤ 101 ∧
    createBatchQR demoRuntime 101 .nan demoWorld = some (.ok [], ensureQRDirectory demoWorld) ∧
    createBatchQR demoRuntime 101 .posInf demoWorld = some (.error COUNT_ERROR, demoWorld) :=
  ⟨by decide, (createBatchQR_guard_only demoRuntime 101 demoWorld (by decide)).2.2.1,
    (createBatchQR_guard_only demoRuntime 101 demoWorld (by decide)).2.1 .posInf
      (Or.inr rfl)⟩

/-! ## Filenames and metadata -/

theorem digit_ne (c x : Char) (hc : c.isDigit = true) (hx : x.isDigit = false) : c ≠ x := by
  rintro rfl
  rw [hc] at hx
  exact Bool.noConfusion hx

theorem cleanTimestamp_digit (c : Char) (hc : c.isDigit = true) :
    (if c = ':' ∨ c = '.' then '-' else c) = c := by
  rw [if_neg]
  rintro (h | h)
  · exact digit_ne c ':' hc (by decide) h
  · exact digit_ne c '.' hc (by decide) h

theorem cleanTimestamp_iso (t : IsoDigits) (h : t.wellFormed) :
    cleanTimestamp t.toISOString = t.dashed := by
  obtain ⟨⟨a1, a2, a3, a4⟩, ⟨b1, b2, b3, b4⟩, ⟨c1, c2, c3, c4⟩, ⟨e1, e2⟩, f1, f2, f3⟩ := h
  simp [cleanTimestamp, IsoDigits.toISOString, IsoDigits.dashed, IsoDigits.date,
    cleanTimestamp_digit, a1, a2, a3, a4, b1, b2, b3, b4, c1, c2, c3, c4, e1, e2, f1, f2, f3]

theorem replaceFirst_png_suffix (s : Str) (h : '.' ∉ s) : replaceFirst PNG [] (s ++ PNG) = s := by
  induction s with
  | nil => decide
  | cons c t ih =>
    have hc : c ≠ '.' := fun e => h (e ▸ List.mem_cons_self _ _)
    have ht : '.' ∉ t := fun e => h (List.mem_cons_of_mem _ e)
    have hp : PNG.isPrefixOf (c :: (t ++ PNG)) = false := by
      simp [PNG, List.isPrefixOf, Ne.symm hc]
    rw [List.cons_append, replaceFirst, hp, ih ht]
    simp


theorem timeMatch_head (c : Char) (s : Str) (hc : c ≠ 'T') : timeMatch (c :: s) = none := by
  unfold timeMatch
  split
  · rename_i heq
    have : c = _ := (List.cons.inj heq).1
    subst this
    rw [if_neg]
    exact fun h => hc h.1
  · rfl

theorem restoreTime_append (pre t r rest : Str) (hpre : 'T' ∉ pre)
    (ht : timeMatch t = some (r, rest)) : restoreTime (pre ++ t) = pre ++ (r ++ rest) := by
  induction pre with
  | nil =>
    cases t with
    | nil => simp [timeMatch] at ht
    | cons c t => simp [restoreTime, ht]
  | cons c pre ih =>
    have hc : c ≠ 'T' := fun e => hpre (e ▸ List.mem_cons_self _ _)
    have hp : 'T' ∉ pre := fun e => hpre (List.mem_cons_of_mem _ e)
    simp [restoreTime, timeMatch_head _ _ hc, ih hp]

theorem restoreTime_dashed (t : IsoDigits) (h : t.wellFormed) :
    restoreTime t.dashed = t.toISOString := by
  obtain ⟨⟨a1, a2, a3, a4⟩, ⟨b1, b2, b3, b4⟩, ⟨c1, c2, c3, c4⟩, ⟨e1, e2⟩, f1, f2, f3⟩ := h
  unfold IsoDigits.dashed IsoDigits.toISOString
  rw [restoreTime_append t.date _
    ['T', t.h1, t.h2, ':', t.mi1, t.mi2, ':', t.s1, t.s2, '.', t.ms1, t.ms2, t.ms3, 'Z'] []]
  · simp
  · have n1 := digit_ne _ 'T' a1 (by decide)
    have n2 := digit_ne _ 'T' a2 (by decide)
    have n3 := digit_ne _ 'T' a3 (by decide)
    have n4 := digit_ne _ 'T' a4 (by decide)
    have n5 := digit_ne _ 'T' b1 (by decide)
    have n6 := digit_ne _ 'T' b2 (by decide)
    have n7 := digit_ne _ 'T' b3 (by decide)
    have n8 := digit_ne _ 'T' b4 (by decide)
    simp [IsoDigits.date, Ne.symm n1, Ne.symm n2, Ne.symm n3, Ne.symm n4, Ne.symm n5,
      Ne.symm n6, Ne.symm n7, Ne.symm n8]
  · simp [timeMatch, c1, c2, c3, c4, e1, e2, f1, f2, f3]

theorem dashed_no_dot (t : IsoDigits) (h : t.wellFormed) : '.' ∉ t.dashed := by
  obtain ⟨⟨a1, a2, a3, a4⟩, ⟨b1, b2, b3, b4⟩, ⟨c1, c2, c3, c4⟩, ⟨e1, e2⟩, f1, f2, f3⟩ := h
  have key : ∀ c : Char, c.isDigit = true → ¬ '.' = c :=
    fun c hc e => digit_ne c '.' hc (by decide) e.symm
  simp [IsoDigits.dashed, IsoDigits.date, key, a1, a2, a3, a4, b1, b2, b3, b4, c1, c2, c3, c4,
    e1, e2, f1, f2, f3]

theorem dashed_no_terminator (t : IsoDigits) (h : t.wellFormed) :
    t.dashed.all (fun x => !isLineTerminator x) = true := by
  obtain ⟨⟨a1, a2, a3, a4⟩, ⟨b1, b2, b3, b4⟩, ⟨c1, c2, c3, c4⟩, ⟨e1, e2⟩, f1, f2, f3⟩ := h
  have key : ∀ c : Char, c.isDigit = true → isLineTerminator c = false := by
    intro c hc
    simp only [Char.isDigit, Bool.and_eq_true, decide_eq_true_eq] at hc
    have : 48 ≤ c.toNat := hc.1
    simp only [isLineTerminator, Bool.or_eq_false_iff, decide_eq_false_iff_not]
    have h2 : c.toNat ≤ 57 := hc.2
    omega
  simp [IsoDigits.dashed, IsoDigits.date, key, a1, a2, a3, a4, b1, b2, b3, b4, c1, c2, c3, c4,
    e1, e2, f1, f2, f3]
  decide

theorem batchMatch_head (c : Char) (s : Str) (hc : c ≠ 'b') : batchMatch (c :: s) = none := by
  have hp : BATCH.isPrefixOf (c :: s) = false := by
    simp [BATCH, List.isPrefixOf, Ne.symm hc]
  unfold batchMatch
  rw [hp]
  rfl

theorem batchMatch_batch (ds rest : Str) (hds : ∀ x ∈ ds, x.isDigit = true) (hne : ds ≠ [])
    (hrest : rest ≠ []) (hlt : rest.all (fun x => !isLineTerminator x) = true) :
    batchMatch (BATCH ++ ds ++ '-' :: rest) = some (ds, rest) := by
  have hp : BATCH.isPrefixOf (BATCH ++ ds ++ '-' :: rest) = true := by
    simp [List.append_assoc]
  have hd : (BATCH ++ ds ++ '-' :: rest).drop BATCH.length = ds ++ '-' :: rest := by
    simp [List.append_assoc]
  unfold batchMatch
  rw [hp, hd]
  simp only [if_true, takeWhile_digits_append ds '-' rest hds (by decide),
    dropWhile_digits_append ds '-' rest hds (by decide)]
  rw [if_pos ⟨trivial, hne, hrest, hlt⟩]

theorem extractMetadata_displayTime (rt : Runtime) (filename : Str) :
    (extractMetadata rt filename).displayTime =
      displayTime rt (timestampPart filename) filename := by
  unfold extractMetadata timestampPart
  dsimp only
  generalize batchMatch (replaceFirst PNG [] filename) = m
  cases m <;> rfl

theorem takeWhile_digits_self (ds : Str) (hds : ∀ x ∈ ds, x.isDigit = true) :
    ds.takeWhile Char.isDigit = ds := by
  induction ds with
  | nil => rfl
  | cons d ds ih =>
    have hd : d.isDigit = true := hds d (List.mem_cons_self _ _)
    simp [List.takeWhile, hd, ih (fun x hx => hds x (List.mem_cons_of_mem _ hx))]

theorem parseInt_decimal (rt : Runtime) (i : Nat) (h : i ≤ 2 ^ 53) :
    parseInt rt (decimal i) = .fin i := by
  have htake : (decimal i).takeWhile Char.isDigit = decimal i :=
    takeWhile_digits_self _ (decimal_isDigit i)
  unfold parseInt
  simp only [htake, digitsValue_decimal, if_neg (decimal_ne_nil i), if_pos h]

theorem single_stem (t : IsoDigits) (h : t.wellFormed) :
    replaceFirst PNG [] (createFilename t.toISOString) = t.dashed ∧
      batchMatch t.dashed = none := by
  constructor
  · simp only [createFilename, List.nil_append, cleanTimestamp_iso t h]
    exact replaceFirst_png_suffix _ (dashed_no_dot t h)
  · have hy : t.y1 ≠ 'b' := digit_ne _ 'b' h.1.1 (by decide)
    exact batchMatch_head _ _ hy

theorem batch_stem (t : IsoDigits) (i : Nat) (h : t.wellFormed) :
    replaceFirst PNG [] (createFilename t.toISOString (batchPrefix i)) =
        BATCH ++ decimal i ++ '-' :: t.dashed ∧
      batchMatch (BATCH ++ decimal i ++ '-' :: t.dashed) = some (decimal i, t.dashed) := by
  constructor
  · have hdot : '.' ∉ BATCH ++ decimal i ++ '-' :: t.dashed := by
      simp only [List.mem_append, List.mem_cons, not_or]
      refine ⟨⟨by decide, fun hm => ?_⟩, by decide, dashed_no_dot t h⟩
      exact absurd (decimal_isDigit i _ hm) (by decide)
    have := replaceFirst_png_suffix _ hdot
    simpa [createFilename, batchPrefix, cleanTimestamp_iso t h, List.append_assoc] using this
  · exact batchMatch_batch _ _ (decimal_isDigit i) (decimal_ne_nil i)
      (by simp [IsoDigits.dashed, IsoDigits.date]) (dashed_no_terminator t h)

/-- C5: round trip between `createFilename` and `extractMetadata`. For a
well-formed instant `ts` of the form `YYYY-MM-DDTHH:MM:SS.mmmZ` and a batch
index `i` in the range where numbers are exact, (a) `extractMetadata`
classifies `createFilename(ts)` as single, and the string it rebuilds and
hands to the date parser is exactly `ts`; (b) it classifies
`createFilename(ts, 'batch-i-')` as batch with `batchNumber = i`, and again
the string it parses is exactly `ts`. So whenever the parser accepts `ts`,
`displayTime` is the rendering of the date `ts` denotes, never the filename
fallback. -/
theorem extractMetadata_roundtrip (rt : Runtime) (t : IsoDigits) (i : Nat)
    (hwf : t.wellFormed) (hsafe : i ≤ 2 ^ 53) :
    ((extractMetadata rt (createFilename t.toISOString)).type = .single ∧
      restoreTime (timestampPart (createFilename t.toISOString)) = t.toISOString ∧
      (extractMetadata rt (createFilename t.toISOString)).displayTime =
        match rt.dateParse t.toISOString with
        | some date => rt.toLocaleString date
        | none => createFilename t.toISOString) ∧
    ((extractMetadata rt (createFilename t.toISOString (batchPrefix i))).type = .batch ∧
      (extractMetadata rt (createFilename t.toISOString (batchPrefix i))).batchNumber =
        some (.fin i) ∧
      restoreTime (timestampPart (createFilename t.toISOString (batchPrefix i))) =
        t.toISOString ∧
      (extractMetadata rt (createFilename t.toISOString (batchPrefix i))).displayTime =
        match rt.dateParse t.toISOString with
        | some date => rt.toLocaleString date
        | none => createFilename t.toISOString (batchPrefix i)) ∧
    (∀ date, rt.dateParse t.toISOString = some date →
      (extractMetadata rt (createFilename t.toISOString)).displayTime =
          rt.toLocaleString date ∧
        (extractMetadata rt (createFilename t.toISOString (batchPrefix i))).displayTime =
          rt.toLocaleString date) := by
  obtain ⟨hs1, hs2⟩ := single_stem t hwf
  obtain ⟨hb1, hb2⟩ := batch_stem t i hwf
  have hr := restoreTime_dashed t hwf
  have hpS : timestampPart (createFilename t.toISOString) = t.dashed := by
    simp only [timestampPart, hs1, hs2]
  have hpB : timestampPart (createFilename t.toISOString (batchPrefix i)) = t.dashed := by
    simp only [timestampPart, hb1, hb2]
  have hdS := extractMetadata_displayTime rt (createFilename t.toISOString)
  have hdB := extractMetadata_displayTime rt (createFilename t.toISOString (batchPrefix i))
  rw [hpS] at hdS
  rw [hpB] at hdB
  simp only [displayTime, hr] at hdS hdB
  refine ⟨⟨?_, by rw [hpS, hr], hdS⟩, ⟨?_, ?_, by rw [hpB, hr], hdB⟩, ?_⟩
  · simp only [extractMetadata, hs1, hs2]
  · simp only [extractMetadata, hb1, hb2]
  · simp only [extractMetadata, hb1, hb2, parseInt_decimal rt i hsafe]
  · intro date hdate
    rw [hdS, hdB, hdate]
    exact ⟨rfl, rfl⟩

theorem extractMetadata_roundtrip_witness :
    demoInstant.wellFormed ∧ 5 ≤ 2 ^ 53 ∧
    demoRuntime.dateParse demoInstant.toISOString = some 1704110400000 ∧
    (extractMetadata demoRuntime (createFilename demoInstant.toISOString)).displayTime =
      demoRuntime.toLocaleString 1704110400000 ∧
    (extractMetadata demoRuntime
      (createFilename demoInstant.toISOString (batchPrefix 5))).displayTime =
      demoRuntime.toLocaleString 1704110400000 :=
  ⟨by decide, by decide, by decide,
    (extractMetadata_roundtrip demoRuntime demoInstant 5 (by decide)
      (by decide)).2.2 1704110400000 (by decide)⟩

theorem batchMatch_some_iff (s ds rest : Str) :
    batchMatch s = some (ds, rest) ↔
      s = BATCH ++ ds ++ '-' :: rest ∧ ds ≠ [] ∧ (∀ x ∈ ds, x.isDigit = true) ∧ rest ≠ [] ∧
        rest.all (fun x => !isLineTerminator x) = true := by
  constructor
  · intro h
    unfold batchMatch at h
    split at h
    · rename_i hp
      obtain ⟨r, rfl⟩ := List.isPrefixOf_iff_prefix.mp hp
      simp only [List.drop_left] at h
      split at h
      · rename_i c rest1 hdrop
        split at h
        · rename_i hcond
          obtain ⟨hc, hne, hrest, hlt⟩ := hcond
          simp only [Option.some.injEq, Prod.mk.injEq] at h
          obtain ⟨h1, h2⟩ := h
          subst h2
          refine ⟨?_, h1 ▸ hne, ?_, hrest, hlt⟩
          · have := List.takeWhile_append_dropWhile Char.isDigit r
            rw [hdrop, h1, hc] at this
            rw [List.append_assoc, this]
          · intro x hx
            rw [← h1] at hx
            exact (List.mem_takeWhile_imp hx)
        · exact absurd h (by simp)
      · exact absurd h (by simp)
    · exact absurd h (by simp)
  · rintro ⟨rfl, hne, hds, hrest, hlt⟩
    exact batchMatch_batch ds rest hds hne hrest hlt

theorem batchMatch_isSome_iff (s : Str) :
    (batchMatch s).isSome = true ↔ IsBatchStem (fun x => !isLineTerminator x) s := by
  constructor
  · intro h
    obtain ⟨⟨ds, rest⟩, hp⟩ := Option.isSome_iff_exists.mp h
    obtain ⟨h1, h2, h3, h4, h5⟩ := (batchMatch_some_iff s ds rest).mp hp
    exact ⟨ds, rest, h1, h2, h3, h4, fun x hx => List.all_eq_true.mp h5 x hx⟩
  · rintro ⟨ds, rest, h1, h2, h3, h4, h5⟩
    rw [(batchMatch_some_iff s ds rest).mpr ⟨h1, h2, h3, h4, List.all_eq_true.mpr h5⟩]
    rfl

theorem replaceFirst_png_end (stem : Str) (h : ¬ PNG <:+: stem) :
    replaceFirst PNG [] (stem ++ PNG) = stem := by
  induction stem with
  | nil => decide
  | cons c t ih =>
    have ht : ¬ PNG <:+: t := fun e => h (List.IsInfix.trans e (List.infix_cons (List.infix_refl t)))
    have hp : PNG.isPrefixOf (c :: (t ++ PNG)) = false := by
      rcases t with _ | ⟨a, _ | ⟨b, _ | ⟨d, t1⟩⟩⟩
      · simp [PNG, List.isPrefixOf]
      · simp [PNG, List.isPrefixOf]
      · simp [PNG, List.isPrefixOf]
      · by_contra hcon
        rw [Bool.not_eq_false] at hcon
        apply h
        have h4 : PNG = [c, a, b, d] := by
          simp [PNG, List.isPrefixOf] at hcon
          obtain ⟨h1, h2, h3, h4⟩ := hcon
          subst h1 h2 h3 h4
          rfl
        rw [h4]
        exact ⟨[], t1, by simp⟩
    rw [List.cons_append, replaceFirst, hp, ih ht]
    simp

theorem extractMetadata_of_none (rt : Runtime) (filename : Str)
    (h : batchMatch (replaceFirst PNG [] filename) = none) :
    extractMetadata rt filename =
      { type := .single, batchNumber := none,
        displayTime := displayTime rt (replaceFirst PNG [] filename) filename,
        displayName := SINGLE_NAME } := by
  simp only [extractMetadata, h]

theorem extractMetadata_of_some (rt : Runtime) (filename ds rest : Str)
    (h : batchMatch (replaceFirst PNG [] filename) = some (ds, rest)) :
    extractMetadata rt filename =
      { type := .batch, batchNumber := some (parseInt rt ds),
        displayTime := displayTime rt rest filename,
        displayName := BATCH_NAME ++ ds } := by
  simp only [extractMetadata, h]

theorem isBatchStem_strict (s : Str) (h : IsBatchStem (fun _ => true) s)
    (hs : s.all (fun x => !isLineTerminator x) = true) :
    IsBatchStem (fun x => !isLineTerminator x) s := by
  obtain ⟨ds, rest, h1, h2, h3, h4, -⟩ := h
  refine ⟨ds, rest, h1, h2, h3, h4, fun x hx => List.all_eq_true.mp hs x ?_⟩
  rw [h1]
  simp [hx]

/-- C6, refuted as stated, at two filenames that end in `.png`. For
`batch-1-` ++ LF ++ `.png` the name without its last four characters has the
batch form, yet the type is single: `.` in the pattern matches no line
terminator. For `batch-1.png-x.png` the name without its last four characters
is `batch-1.png-x`, which has not the batch form, yet the type is batch: the
first `.png` is the one removed, leaving `batch-1-x.png`. -/
theorem extractMetadata_dispatch_counterexample :
    (IsBatchStem (fun _ => true) (BATCH ++ ['1', '-', Char.ofNat 10]) ∧
      (extractMetadata demoRuntime (BATCH ++ ['1', '-', Char.ofNat 10] ++ PNG)).type =
        .single) ∧
    (¬ IsBatchStem (fun _ => true) (BATCH ++ ['1', '.', 'p', 'n', 'g', '-', 'x']) ∧
      (extractMetadata demoRuntime (BATCH ++ ['1', '.', 'p', 'n', 'g', '-', 'x'] ++ PNG)).type =
        .batch) := by
  refine ⟨⟨⟨['1'], [Char.ofNat 10], by decide, by decide, by decide, by decide, by simp⟩,
    by decide⟩, ?_, by decide⟩
  intro h
  have hs := (batchMatch_isSome_iff _).mpr (isBatchStem_strict _ h (by decide))
  exact absurd hs (by decide)

/-- C6, amended: for a filename that ends in `.png` and contains `.png`
nowhere else, the type is batch exactly when the name without its last four
characters is `batch-`, one or more decimal digits, `-`, and one or more
characters none of which is a line terminator; otherwise the type is single,
the display name is `Single QR` and there is no batch number. -/
theorem extractMetadata_dispatch (rt : Runtime) (stem : Str) (h : ¬ PNG <:+: stem) :
    ((extractMetadata rt (stem ++ PNG)).type = .batch ↔
        IsBatchStem (fun x => !isLineTerminator x) stem) ∧
    (¬ IsBatchStem (fun x => !isLineTerminator x) stem →
      (extractMetadata rt (stem ++ PNG)).type = .single ∧
        (extractMetadata rt (stem ++ PNG)).displayName = SINGLE_NAME ∧
        (extractMetadata rt (stem ++ PNG)).batchNumber = none) := by
  have hstem := replaceFirst_png_end stem h
  rw [← batchMatch_isSome_iff]
  cases hb : batchMatch stem with
  | none =>
    have hm := extractMetadata_of_none rt (stem ++ PNG) (by rw [hstem, hb])
    rw [hm]
    simp
  | some p =>
    obtain ⟨ds, rest⟩ := p
    have hm := extractMetadata_of_some rt (stem ++ PNG) ds rest (by rw [hstem, hb])
    rw [hm]
    simp

theorem extractMetadata_dispatch_witness :
    ¬ PNG <:+: (BATCH ++ ['5', '-', 'x']) ∧
      (extractMetadata demoRuntime (BATCH ++ ['5', '-', 'x'] ++ PNG)).type = .batch ∧
      IsBatchStem (fun x => !isLineTerminator x) (BATCH ++ ['5', '-', 'x']) := by
  have hinf : ¬ PNG <:+: (BATCH ++ ['5', '-', 'x']) := by decide
  have hty : (extractMetadata demoRuntime (BATCH ++ ['5', '-', 'x'] ++ PNG)).type = .batch := by
    decide
  exact ⟨hinf, hty, (extractMetadata_dispatch demoRuntime _ hinf).1.mp hty⟩

theorem replaceFirst_skip (p s : Str) (h : '.' ∉ p) :
    replaceFirst PNG [] (p ++ s) = p ++ replaceFirst PNG [] s := by
  induction p with
  | nil => rfl
  | cons c t ih =>
    have hc : c ≠ '.' := fun e => h (e ▸ List.mem_cons_self _ _)
    have ht : '.' ∉ t := fun e => h (List.mem_cons_of_mem _ e)
    have hp : PNG.isPrefixOf (c :: (t ++ s)) = false := by
      simp [PNG, List.isPrefixOf, Ne.symm hc]
    rw [List.cons_append, replaceFirst, hp, ih ht]
    simp

theorem replaceFirst_mem (s : Str) (x : Char) (hx : x ∈ replaceFirst PNG [] s) : x ∈ s := by
  induction s with
  | nil => simp [replaceFirst, PNG] at hx
  | cons c t ih =>
    rw [replaceFirst] at hx
    split at hx
    · exact List.mem_of_mem_drop (by simpa using hx)
    · rcases List.mem_cons.mp hx with rfl | hx
      · exact List.mem_cons_self _ _
      · exact List.mem_cons_of_mem _ (ih hx)

theorem replaceFirst_length (s : Str) : s.length ≤ (replaceFirst PNG [] s).length + 4 := by
  induction s with
  | nil => simp
  | cons c t ih =>
    rw [replaceFirst]
    split
    · simp [PNG]; omega
    · simp; omega

theorem toDigitsCore_acc : ∀ (f n : Nat) (acc : List Char),
    Nat.toDigitsCore 10 f n acc = Nat.toDigitsCore 10 f n [] ++ acc := by
  intro f
  induction f with
  | zero => intro n acc; simp [Nat.toDigitsCore]
  | succ f ih =>
    intro n acc
    simp only [Nat.toDigitsCore]
    by_cases h0 : n / 10 = 0
    · simp [h0]
    · simp only [h0, if_false]
      rw [ih (n / 10) (_ :: acc), ih (n / 10) [_]]
      simp

theorem toDigitsCore_fuel : ∀ (f1 f2 n : Nat), n < f1 → n < f2 →
    Nat.toDigitsCore 10 f1 n [] = Nat.toDigitsCore 10 f2 n [] := by
  intro f1
  induction f1 with
  | zero => intro f2 n h; omega
  | succ f ih =>
    intro f2 n h1 h2
    obtain ⟨g, rfl⟩ : ∃ g, f2 = g + 1 := ⟨f2 - 1, by omega⟩
    simp only [Nat.toDigitsCore]
    by_cases h0 : n / 10 = 0
    · simp [h0]
    · simp only [h0, if_false]
      rw [toDigitsCore_acc f, toDigitsCore_acc g, ih g (n / 10) (by omega) (by omega)]

theorem decimal_snoc (v c : Nat) (hv : 0 < v) (hc : c < 10) :
    decimal (10 * v + c) = decimal v ++ [Nat.digitChar c] := by
  unfold decimal Nat.toDigits
  have h1 : (10 * v + c) / 10 = v := by omega
  have h2 : (10 * v + c) % 10 = c := by omega
  rw [Nat.toDigitsCore]
  simp only [h1, h2, if_neg (by omega : ¬ v = 0)]
  rw [toDigitsCore_acc, toDigitsCore_fuel _ (v + 1) v (by omega) (by omega)]

theorem digitChar_toNat (c : Char) (hc : c.isDigit = true) :
    Nat.digitChar (c.toNat - 48) = c := by
  simp only [Char.isDigit, Bool.and_eq_true, decide_eq_true_eq] at hc
  have h1 : 48 ≤ c.toNat := hc.1
  have h2 : c.toNat ≤ 57 := hc.2
  rw [← Char.ofNat_toNat c]
  generalize c.toNat = n at h1 h2
  interval_cases n <;> decide

theorem char_digit_lt (c : Char) (hc : c.isDigit = true) : c.toNat - 48 < 10 := by
  simp only [Char.isDigit, Bool.and_eq_true, decide_eq_true_eq] at hc
  have h2 : c.toNat ≤ 57 := hc.2
  omega

theorem digitsValue_snoc (d : Str) (c : Char) :
    digitsValue (d ++ [c]) = 10 * digitsValue d + (c.toNat - 48) := by
  simp [digitsValue, List.foldl_append]

/-- A non-empty string of digits without a superfluous leading zero is the
decimal rendering of its value. -/
theorem decimal_digitsValue (d : Str) (hdig : ∀ x ∈ d, x.isDigit = true) (hne : d ≠ [])
    (hz : d.head? ≠ some '0' ∨ d = ['0']) : decimal (digitsValue d) = d := by
  induction d using List.reverseRecOn with
  | nil => exact absurd rfl hne
  | append_singleton d c ih =>
    have hc : c.isDigit = true := hdig c (by simp)
    rw [digitsValue_snoc]
    by_cases hd : d = []
    · subst hd
      have hlt := char_digit_lt c hc
      have : decimal (c.toNat - 48) = [Nat.digitChar (c.toNat - 48)] := by
        generalize c.toNat - 48 = n at hlt
        interval_cases n <;> rfl
      simp only [digitsValue, List.foldl, Nat.mul_zero, Nat.zero_add, List.nil_append, this,
        digitChar_toNat c hc]
    · have hhead : d.head? ≠ some '0' := by
        rcases hz with hz | hz
        · cases d with
          | nil => exact absurd rfl hd
          | cons a t => simpa using hz
        · cases d with
          | nil => exact absurd rfl hd
          | cons a t => simp at hz
      have ihd := ih (fun x hx => hdig x (by simp [hx])) hd (Or.inl hhead)
      have hpos : 0 < digitsValue d := by
        rcases Nat.eq_zero_or_pos (digitsValue d) with h0 | h0
        · rw [h0] at ihd
          rw [← ihd] at hhead
          exact absurd rfl hhead
        · exact h0
      rw [decimal_snoc _ _ hpos (char_digit_lt c hc), ihd, digitChar_toNat c hc]

theorem parseInt_digits (rt : Runtime) (d : Str) (hne : d ≠ [])
    (hdig : ∀ x ∈ d, x.isDigit = true) (h : digitsValue d ≤ 2 ^ 53) :
    parseInt rt d = .fin (digitsValue d) := by
  unfold parseInt
  simp only [takeWhile_digits_self d hdig, if_neg hne, if_pos h]

theorem batch_name_match (d rest : Str) (hne : d ≠ []) (hdig : ∀ x ∈ d, x.isDigit = true)
    (hrest : rest ≠ []) (hlt : ∀ x ∈ rest, isLineTerminator x = false) :
    ∃ rest2, batchMatch (replaceFirst PNG [] (BATCH ++ d ++ ['-'] ++ rest ++ PNG)) =
      some (d, rest2) := by
  have hdot : '.' ∉ BATCH ++ d ++ ['-'] := by
    simp only [List.mem_append, List.mem_singleton, not_or]
    exact ⟨⟨by decide, fun hm => absurd (hdig _ hm) (by decide)⟩, by decide⟩
  have hstem : replaceFirst PNG [] (BATCH ++ d ++ ['-'] ++ rest ++ PNG) =
      BATCH ++ d ++ '-' :: replaceFirst PNG [] (rest ++ PNG) := by
    rw [List.append_assoc (BATCH ++ d ++ ['-']), replaceFirst_skip _ _ hdot]
    simp
  refine ⟨replaceFirst PNG [] (rest ++ PNG), ?_⟩
  rw [hstem]
  apply batchMatch_batch _ _ hdig hne
  · intro h0
    have hl := replaceFirst_length (rest ++ PNG)
    have hr : 0 < rest.length := List.length_pos.mpr hrest
    have hp : PNG.length = 4 := rfl
    rw [h0, List.length_append, hp] at hl
    simp only [List.length_nil] at hl
    omega
  · rw [List.all_eq_true]
    intro x hx
    rcases List.mem_append.mp (replaceFirst_mem _ _ hx) with hx | hx
    · simp [hlt x hx]
    · have hpng : ∀ y ∈ PNG, (!isLineTerminator y) = true := by decide
      exact hpng x hx

/-- C7, refuted as stated: for `batch-007-x.png` the batch number is 7 but
the display name is `Batch #007`, the digits as written, not `Batch #7`; and
for `batch-5-` ++ LF ++ `.png`, whose rest is the one character LF, there is
no batch number at all. -/
theorem extractMetadata_batch_counterexample :
    ((extractMetadata demoRuntime (BATCH ++ ['0', '0', '7'] ++ ['-'] ++ ['x'] ++ PNG)).batchNumber =
        some (.fin (digitsValue ['0', '0', '7'])) ∧
      digitsValue ['0', '0', '7'] = 7 ∧
      (extractMetadata demoRuntime (BATCH ++ ['0', '0', '7'] ++ ['-'] ++ ['x'] ++ PNG)).displayName =
        BATCH_NAME ++ ['0', '0', '7'] ∧
      (extractMetadata demoRuntime (BATCH ++ ['0', '0', '7'] ++ ['-'] ++ ['x'] ++ PNG)).displayName ≠
        BATCH_NAME ++ decimal 7) ∧
    (extractMetadata demoRuntime
      (BATCH ++ ['5'] ++ ['-'] ++ [Char.ofNat 10] ++ PNG)).batchNumber = none := by
  refine ⟨⟨?_, by decide, by decide, by decide⟩, by decide⟩
  obtain ⟨rest2, h⟩ := batch_name_match ['0', '0', '7'] ['x'] (by decide) (by decide)
    (by decide) (by decide)
  rw [extractMetadata_of_some _ _ _ _ h,
    parseInt_digits _ _ (by decide) (by decide) (by decide)]

/-- C7, amended: for a filename `batch-` ++ `d` ++ `-` ++ `rest` ++ `.png`
with `d` a non-empty string of decimal digits of value at most `2 ^ 53` and
`rest` non-empty and free of line terminators, `extractMetadata` returns the
type batch, `batchNumber` equal to the integer value of `d`, and
`displayName` equal to `Batch #` followed by `d` as written; when `d` has no
superfluous leading zero that is `Batch #` followed by the decimal rendering
of the batch number. -/
theorem extractMetadata_batch_fields (rt : Runtime) (d rest : Str) (hne : d ≠ [])
    (hdig : ∀ x ∈ d, x.isDigit = true) (hsafe : digitsValue d ≤ 2 ^ 53) (hrest : rest ≠ [])
    (hlt : ∀ x ∈ rest, isLineTerminator x = false) :
    (extractMetadata rt (BATCH ++ d ++ ['-'] ++ rest ++ PNG)).type = .batch ∧
    (extractMetadata rt (BATCH ++ d ++ ['-'] ++ rest ++ PNG)).batchNumber =
      some (.fin (digitsValue d)) ∧
    (extractMetadata rt (BATCH ++ d ++ ['-'] ++ rest ++ PNG)).displayName = BATCH_NAME ++ d ∧
    ((d.head? ≠ some '0' ∨ d = ['0']) →
      (extractMetadata rt (BATCH ++ d ++ ['-'] ++ rest ++ PNG)).displayName =
        BATCH_NAME ++ decimal (digitsValue d)) := by
  obtain ⟨rest2, h⟩ := batch_name_match d rest hne hdig hrest hlt
  rw [extractMetadata_of_some _ _ _ _ h, parseInt_digits rt d hne hdig hsafe]
  refine ⟨rfl, rfl, rfl, fun hz => ?_⟩
  rw [decimal_digitsValue d hdig hne hz]

theorem extractMetadata_batch_fields_witness :
    (extractMetadata demoRuntime
      (BATCH ++ ['5'] ++ ['-'] ++ demoInstant.dashed ++ PNG)).batchNumber = some (.fin 5) ∧
    (extractMetadata demoRuntime
      (BATCH ++ ['5'] ++ ['-'] ++ demoInstant.dashed ++ PNG)).displayName =
        BATCH_NAME ++ ['5'] := by
  have h := extractMetadata_batch_fields demoRuntime ['5'] demoInstant.dashed (by decide)
    (by decide) (by decide) (by decide) (by decide)
  have hv : digitsValue ['5'] = 5 := by decide
  refine ⟨?_, h.2.2.1⟩
  rw [h.2.1, hv]
  norm_num

/-- C8: the fallback path of `extractMetadata`. For every filename, single or
batch, and every date parser: if the string obtained by restoring the time
separators in the timestamp part does not parse to a valid date, then
`displayTime` is the filename argument itself, unmodified, extension
included. The function is total: no exception escapes. -/
theorem extractMetadata_fallback (rt : Runtime) (filename : Str)
    (h : rt.dateParse (restoreTime (timestampPart filename)) = none) :
    (extractMetadata rt filename).displayTime = filename := by
  rw [extractMetadata_displayTime, displayTime, h]

theorem extractMetadata_fallback_witness :
    demoRuntime.dateParse (restoreTime (timestampPart "not-a-timestamp.png".toList)) = none ∧
    extractMetadata demoRuntime "not-a-timestamp.png".toList =
      { type := .single, batchNumber := none, displayTime := "not-a-timestamp.png".toList,
        displayName := "Single QR".toList } := by
  have h := extractMetadata_fallback demoRuntime "not-a-timestamp.png".toList (by decide)
  have hm := extractMetadata_of_none demoRuntime "not-a-timestamp.png".toList (by decide)
  refine ⟨by decide, ?_⟩
  rw [hm] at h ⊢
  simp only at h
  rw [h]
  rfl

/-! ## The placement loop -/

theorem placementLoop_cons (rt : Runtime) (g : Geometry) (c : Cursor) (f : Str) (rest : List Str) :
    (placementLoop rt g c (f :: rest)).1 =
      (placeItem rt g c f).2 :: (placementLoop rt g (placeItem rt g c f).1 rest).1 := rfl

theorem placementLoop_length (rt : Runtime) (g : Geometry) (files : List Str) :
    ∀ c : Cursor, (placementLoop rt g c files).1.length = files.length := by
  induction files with
  | nil => intro c; rfl
  | cons f rest ih => intro c; rw [placementLoop_cons, List.length_cons, ih, List.length_cons]

theorem drawOps_no_addPage (rt : Runtime) (g : Geometry) (c : Cursor) (f : Str) :
    DocOp.addPage ∉ drawOps rt g c f := by
  simp [drawOps]

theorem placeItem_page (rt : Runtime) (g : Geometry) (c : Cursor) (f : Str) (P : Nat)
    (hP : g.itemsPerPage = (P : Int)) (hd : rt.canDraw f = true) :
    (placeItem rt g c f).1.itemsInCurrentPage =
        (if P ≤ c.itemsInCurrentPage then 1 else c.itemsInCurrentPage + 1) ∧
      (DocOp.addPage ∈ (placeItem rt g c f).2 ↔ P ≤ c.itemsInCurrentPage) ∧
      (placeItem rt g c f).2.count DocOp.addPage =
        (if P ≤ c.itemsInCurrentPage then 1 else 0) := by
  have hno := drawOps_no_addPage rt g
  by_cases h : P ≤ c.itemsInCurrentPage
  · have hc : (c.itemsInCurrentPage : Int) ≥ g.itemsPerPage := by rw [hP]; exact_mod_cast h
    have hnp : newPageCheck g c = (⟨g.left, g.top, 0, 0⟩, true) := by
      simp only [newPageCheck, if_pos hc]
    simp only [placeItem, hnp, hd, if_true, if_pos h]
    refine ⟨?_, by simp [h], ?_⟩
    · unfold newRowCheck; split <;> rfl
    · rw [List.count_append, List.count_eq_zero_of_not_mem (hno _ _)]
      simp
  · have hc : ¬ (c.itemsInCurrentPage : Int) ≥ g.itemsPerPage := by
      rw [hP]; exact_mod_cast h
    have hnp : newPageCheck g c = (c, false) := by
      simp only [newPageCheck, if_neg hc]
    simp only [placeItem, hnp, hd, if_true, if_neg h]
    refine ⟨?_, ?_, ?_⟩
    · unfold newRowCheck; split <;> rfl
    · simp [h, hno]
    · simpa using List.count_eq_zero_of_not_mem (hno _ _)

theorem placementLoop_breaks (rt : Runtime) (g : Geometry) (P : Nat)
    (hP : g.itemsPerPage = (P : Int)) (hpos : 1 ≤ P) (files : List Str) :
    ∀ (c : Cursor) (k0 : Nat), (∀ f ∈ files, rt.canDraw f = true) →
      (∃ q, k0 = q * P + c.itemsInCurrentPage) → c.itemsInCurrentPage ≤ P →
      (c.itemsInCurrentPage = 0 → k0 = 0) →
      (∀ k ops, (placementLoop rt g c files).1[k]? = some ops →
        (DocOp.addPage ∈ ops ↔ 0 < k0 + k ∧ P ∣ k0 + k)) ∧
      (1 ≤ k0 → (placementLoop rt g c files).1.flatten.count DocOp.addPage + (k0 - 1) / P =
        (k0 + files.length - 1) / P) := by
  induction files with
  | nil =>
    intro c k0 _ _ _ _
    refine ⟨fun k ops h => ?_, fun _ => ?_⟩
    · simp [placementLoop] at h
    · simp [placementLoop]
  | cons f rest ih =>
    intro c k0 hdraw hq hle hzero
    obtain ⟨q, hq⟩ := hq
    obtain ⟨h1, h2, h3⟩ := placeItem_page rt g c f P hP (hdraw f (List.mem_cons_self _ _))
    have hbreak : P ≤ c.itemsInCurrentPage ↔ 0 < k0 ∧ P ∣ k0 := by
      constructor
      · intro h
        have hpe : c.itemsInCurrentPage = P := le_antisymm hle h
        rw [hpe] at hq
        exact ⟨by omega, ⟨q + 1, by rw [hq]; ring⟩⟩
      · rintro ⟨hk, hdvd⟩
        have hd2 : P ∣ c.itemsInCurrentPage := by
          have : P ∣ q * P := Dvd.intro_left q rfl
          exact (Nat.dvd_add_right this).mp (hq ▸ hdvd)
        have hne : c.itemsInCurrentPage ≠ 0 := fun h0 => by
          have := hzero h0
          omega
        exact Nat.le_of_dvd (Nat.pos_of_ne_zero hne) hd2
    have hnext := ih (placeItem rt g c f).1 (k0 + 1)
      (fun x hx => hdraw x (List.mem_cons_of_mem _ hx))
      (by
        rw [h1]
        by_cases h : P ≤ c.itemsInCurrentPage
        · have hpe : c.itemsInCurrentPage = P := le_antisymm hle h
          rw [if_pos h]
          exact ⟨q + 1, by rw [hq, hpe]; ring⟩
        · rw [if_neg h]
          exact ⟨q, by rw [hq]; ring⟩)
      (by rw [h1]; split <;> omega)
      (by rw [h1]; split <;> omega)
    refine ⟨fun k ops h => ?_, fun hk0 => ?_⟩
    · rw [placementLoop_cons] at h
      cases k with
      | zero =>
        simp only [List.getElem?_cons_zero, Option.some.injEq] at h
        subst h
        rw [h2, hbreak]
        simp
      | succ k =>
        simp only [List.getElem?_cons_succ] at h
        have := hnext.1 k ops h
        rw [this]
        simp [Nat.add_assoc, Nat.add_comm 1 k]
    · have hrec := hnext.2 (by omega)
      rw [placementLoop_cons, List.flatten_cons, List.count_append, h3]
      simp only [List.length_cons]
      have hdiv : k0 / P = (k0 - 1) / P + if P ∣ k0 then 1 else 0 := by
        have := Nat.succ_div (k0 - 1) P
        rwa [show k0 - 1 + 1 = k0 by omega] at this
      have hb : (if P ≤ c.itemsInCurrentPage then 1 else 0) = if P ∣ k0 then 1 else 0 := by
        by_cases h : P ≤ c.itemsInCurrentPage
        · rw [if_pos h, if_pos (hbreak.mp h).2]
        · have : ¬ P ∣ k0 := fun hd => h (hbreak.mpr ⟨by omega, hd⟩)
          rw [if_neg h, if_neg this]
      rw [hb]
      have e1 : k0 + 1 - 1 = k0 := by omega
      have e2 : k0 + 1 + rest.length - 1 = k0 + (rest.length + 1) - 1 := by omega
      rw [e1, e2] at hrec
      omega

theorem itemsPerPage_nat (g : Geometry) (hrow : 1 ≤ g.itemsPerRow) (hrows : 1 ≤ g.rowsPerPage) :
    g.itemsPerPage = (g.itemsPerPage.toNat : Int) ∧ 1 ≤ g.itemsPerPage.toNat := by
  have h1 : 1 ≤ g.itemsPerPage := by
    unfold Geometry.itemsPerPage
    nlinarith
  constructor
  · exact (Int.toNat_of_nonneg (by omega)).symm
  · omega

theorem A4_grid (titleBottom : ℚ) :
    (A4 titleBottom).itemsPerRow = 5 ∧ (A4 titleBottom).rowsPerPage = 6 ∧
      (A4 titleBottom).itemsPerPage = 30 := by
  have hr : (A4 titleBottom).itemsPerRow = 5 := by
    simp only [Geometry.itemsPerRow, Geometry.pageWidth, A4, sourceGeometry]
    rw [Int.floor_eq_iff]; norm_num
  have hp : (A4 titleBottom).rowsPerPage = 6 := by
    simp only [Geometry.rowsPerPage, Geometry.availableHeight, Geometry.pageHeight,
      Geometry.itemHeight, A4, sourceGeometry]
    rw [Int.floor_eq_iff]; norm_num
  refine ⟨hr, hp, ?_⟩
  simp only [Geometry.itemsPerPage, hr, hp]
  rfl

/-- C9: the page breaks of the placement loop. For a grid with at least one
item per row and one row per page, the loop run from the fresh cursor over
`n` files that all draw starts a new page before the item at the 0-based
position `k` exactly when `k > 0` and `k mod itemsPerPage = 0`. The number of
page breaks is therefore `(n - 1) div itemsPerPage`: with
`n = itemsPerPage + 1` items there is exactly one, before the last item, and
with `n ≤ itemsPerPage` items there is none. -/
theorem placementLoop_pageBreak_iff (rt : Runtime) (g : Geometry) (files : List Str)
    (hrow : 1 ≤ g.itemsPerRow) (hrows : 1 ≤ g.rowsPerPage)
    (hdraw : ∀ f ∈ files, rt.canDraw f = true) :
    (placementLoop rt g (freshCursor g) files).1.length = files.length ∧
    (∀ (k : Nat) (ops : List DocOp),
        (placementLoop rt g (freshCursor g) files).1[k]? = some ops →
      (DocOp.addPage ∈ ops ↔ 0 < k ∧ (k : Int) % g.itemsPerPage = 0)) ∧
    (placementLoop rt g (freshCursor g) files).1.flatten.count DocOp.addPage =
      (files.length - 1) / g.itemsPerPage.toNat ∧
    ((files.length : Int) = g.itemsPerPage + 1 →
      (placementLoop rt g (freshCursor g) files).1.flatten.count DocOp.addPage = 1 ∧
      ∀ (k : Nat) (ops : List DocOp),
        (placementLoop rt g (freshCursor g) files).1[k]? = some ops →
        (DocOp.addPage ∈ ops ↔ (k : Int) = g.itemsPerPage)) ∧
    ((files.length : Int) ≤ g.itemsPerPage →
      (placementLoop rt g (freshCursor g) files).1.flatten.count DocOp.addPage = 0) := by
  obtain ⟨hP, hpos⟩ := itemsPerPage_nat g hrow hrows
  generalize g.itemsPerPage.toNat = P at hP hpos
  have hlen := placementLoop_length rt g files (freshCursor g)
  have hmod : ∀ k : Nat, (k : Int) % g.itemsPerPage = 0 ↔ P ∣ k := by
    intro k
    rw [hP, ← Int.dvd_iff_emod_eq_zero, Int.natCast_dvd_natCast]
  have hiff := (placementLoop_breaks rt g P hP hpos files (freshCursor g) 0 hdraw
    ⟨0, by simp [freshCursor]⟩ (by simp [freshCursor]) (fun _ => rfl)).1
  have hcount : (placementLoop rt g (freshCursor g) files).1.flatten.count DocOp.addPage =
      (files.length - 1) / P := by
    cases files with
    | nil => simp [placementLoop]
    | cons f rest =>
      obtain ⟨h1, -, h3⟩ := placeItem_page rt g (freshCursor g) f P hP
        (hdraw f (List.mem_cons_self _ _))
      have hz : ¬ P ≤ (freshCursor g).itemsInCurrentPage := by
        simp only [freshCursor]; omega
      rw [if_neg hz] at h1 h3
      have hrec := (placementLoop_breaks rt g P hP hpos rest (placeItem rt g (freshCursor g) f).1 1
        (fun x hx => hdraw x (List.mem_cons_of_mem _ hx))
        ⟨0, by rw [h1]; simp [freshCursor]⟩ (by rw [h1]; simp [freshCursor]; omega)
        (by rw [h1]; simp [freshCursor])).2 (le_refl 1)
      rw [placementLoop_cons, List.flatten_cons, List.count_append, h3]
      simp only [Nat.sub_self, Nat.zero_div, Nat.add_zero] at hrec
      simp only [List.length_cons, Nat.add_sub_cancel, Nat.zero_add]
      rw [hrec]
      congr 1
      omega
  refine ⟨hlen, fun k ops h => ?_, hcount, fun hn => ⟨?_, fun k ops h => ?_⟩, fun hn => ?_⟩
  · rw [hiff k ops h, hmod]
    simp
  · rw [hcount]
    have : files.length = P + 1 := by omega
    rw [this, Nat.add_sub_cancel, Nat.div_self (by omega)]
  · have hk : k < files.length := by
      rw [← hlen]
      exact (List.getElem?_eq_some_iff.mp h).1
    rw [hiff k ops h, hP]
    simp only [Nat.zero_add]
    constructor
    · rintro ⟨hk0, q, hq⟩
      have : q = 1 := by
        have hqpos : 0 < q := by
          rcases Nat.eq_zero_or_pos q with h0 | h0
          · subst h0; omega
          · exact h0
        by_contra hne
        have : 2 ≤ q := by omega
        have : P * 2 ≤ P * q := Nat.mul_le_mul_left P this
        omega
      subst this
      simp [hq]
    · intro hkP
      have : k = P := by exact_mod_cast hkP
      subst this
      exact ⟨by omega, dvd_refl _⟩
  · rw [hcount]
    apply Nat.div_eq_of_lt
    omega

theorem placementLoop_pageBreak_iff_witness :
    1 ≤ (A4 62).itemsPerRow ∧ 1 ≤ (A4 62).rowsPerPage ∧
    (placementLoop demoRuntime (A4 62) (freshCursor (A4 62))
      (List.replicate 31 ['a', '.', 'p', 'n', 'g'])).1.flatten.count DocOp.addPage = 1 := by
  obtain ⟨hr, hp, hpp⟩ := A4_grid 62
  refine ⟨by rw [hr]; decide, by rw [hp]; decide, ?_⟩
  exact ((placementLoop_pageBreak_iff demoRuntime (A4 62) (List.replicate 31 _)
    (by rw [hr]; decide) (by rw [hp]; decide) (fun _ _ => rfl)).2.2.2.1
    (by rw [hpp]; simp)).1

/-! ## The grid and the composition -/

theorem getQRCodeFiles_ensure (w : World) :
    getQRCodeFiles (ensureOutputDirectory w) = getQRCodeFiles w := by
  unfold ensureOutputDirectory
  split <;> rfl

theorem generateQRCodesPDF_eq (rt : Runtime) (g : Geometry) (w : World) (qrFiles : List Str)
    (hlist : getQRCodeFiles w = .ok qrFiles) (hne : qrFiles ≠ []) :
    generateQRCodesPDF rt g w =
      (.ok (rt.join OUTPUT_FOLDER PDF_FILENAME),
        { ensureOutputDirectory w with
          pdfFolder := some (writeFile ((ensureOutputDirectory w).pdfFolder.getD []) PDF_FILENAME
            (titleOps rt (ensureOutputDirectory w) qrFiles.length ++
              (placementLoop rt g (freshCursor g) qrFiles).1.flatten)) }) := by
  have hlen : ¬ qrFiles.length = 0 := fun h => hne (List.length_eq_zero.mp h)
  simp only [generateQRCodesPDF, getQRCodeFiles_ensure, hlist, if_neg hlen]

theorem lexLe_cons (a b : Nat) (as bs : List Nat) :
    lexLe (a :: as) (b :: bs) = true ↔ a < b ∨ (a = b ∧ lexLe as bs = true) := by
  rw [lexLe]
  by_cases h1 : a < b
  · simp [h1]
  · by_cases h2 : b < a
    · simp [h1, h2]; omega
    · have : a = b := by omega
      simp [h1, h2, this]

theorem lexLe_refl (as : List Nat) : lexLe as as = true := by
  induction as with
  | nil => rfl
  | cons a as ih => rw [lexLe_cons]; exact Or.inr ⟨rfl, ih⟩

theorem lexLe_total (as : List Nat) : ∀ bs, lexLe as bs = true ∨ lexLe bs as = true := by
  induction as with
  | nil => intro bs; left; rfl
  | cons a as ih =>
    intro bs
    cases bs with
    | nil => right; rfl
    | cons b bs =>
      rw [lexLe_cons, lexLe_cons]
      rcases Nat.lt_trichotomy a b with h | h | h
      · exact Or.inl (Or.inl h)
      · rcases ih bs with h2 | h2
        · exact Or.inl (Or.inr ⟨h, h2⟩)
        · exact Or.inr (Or.inr ⟨h.symm, h2⟩)
      · exact Or.inr (Or.inl h)

theorem lexLe_trans (as : List Nat) :
    ∀ bs cs, lexLe as bs = true → lexLe bs cs = true → lexLe as cs = true := by
  induction as with
  | nil => intro bs cs _ _; rfl
  | cons a as ih =>
    intro bs cs h1 h2
    cases bs with
    | nil => simp [lexLe] at h1
    | cons b bs =>
      cases cs with
      | nil => simp [lexLe] at h2
      | cons c cs =>
        rw [lexLe_cons] at h1 h2 ⊢
        rcases h1 with h1 | ⟨h1, h1t⟩
        · rcases h2 with h2 | ⟨h2, -⟩
          · exact Or.inl (by omega)
          · exact Or.inl (by omega)
        · rcases h2 with h2 | ⟨h2, h2t⟩
          · exact Or.inl (by omega)
          · exact Or.inr ⟨by omega, ih bs cs h1t h2t⟩

theorem lexLe_antisymm (as : List Nat) :
    ∀ bs, lexLe as bs = true → lexLe bs as = true → as = bs := by
  induction as with
  | nil =>
    intro bs _ h2
    cases bs with
    | nil => rfl
    | cons b bs => simp [lexLe] at h2
  | cons a as ih =>
    intro bs h1 h2
    cases bs with
    | nil => simp [lexLe] at h1
    | cons b bs =>
      rw [lexLe_cons] at h1 h2
      rcases h1 with h1 | ⟨h1, h1t⟩
      · rcases h2 with h2 | ⟨h2, -⟩ <;> omega
      · rcases h2 with h2 | ⟨-, h2t⟩
        · omega
        · rw [h1, ih bs h1t h2t]

theorem getQRCodeFiles_sorted (w : World) (l : List Str) (h : getQRCodeFiles w = .ok l) :
    l.Sorted sortLe ∧
      ∃ files, w.qrFolder = some files ∧ l.Perm ((files.map Prod.fst).filter isPngName) := by
  unfold getQRCodeFiles at h
  cases hf : w.qrFolder with
  | none => rw [hf] at h; simp at h
  | some files =>
    rw [hf] at h
    simp only [Except.ok.injEq] at h
    subst h
    haveI : IsTotal Str sortLe := ⟨fun _ _ => lexLe_total _ _⟩
    haveI : IsTrans Str sortLe := ⟨fun _ _ _ h1 h2 => lexLe_trans _ _ _ h1 h2⟩
    exact ⟨List.sorted_insertionSort _ _, files, rfl, List.perm_insertionSort _ _⟩

/-! ## The calendar -/

theorem daysBeforeMonth_succ (y m : Nat) (hm : 1 ≤ m) :
    daysBeforeMonth y (m + 1) = daysBeforeMonth y m + daysInMonth y m := by
  obtain ⟨k, rfl⟩ : ∃ k, m = k + 1 := ⟨m - 1, by omega⟩
  simp [daysBeforeMonth, List.range_succ]

theorem daysInMonth_le (y m : Nat) : 28 ≤ daysInMonth y m ∧ daysInMonth y m ≤ 31 := by
  unfold daysInMonth
  split_ifs <;> omega

theorem daysBeforeMonth_mono (y m1 : Nat) (h1 : 1 ≤ m1) :
    ∀ m2, m1 < m2 → daysBeforeMonth y m1 + daysInMonth y m1 ≤ daysBeforeMonth y m2 := by
  intro m2
  induction m2 with
  | zero => intro h; omega
  | succ n ih =>
    intro h
    rw [daysBeforeMonth_succ y n (by omega)]
    rcases Nat.lt_or_ge m1 n with hlt | hge
    · have := ih hlt
      omega
    · have : m1 = n := by omega
      subst this
      exact le_refl _

theorem daysBeforeMonth_thirteen (y : Nat) :
    daysBeforeMonth y 13 = 365 + (if isLeapYear y = true then 1 else 0) := by
  simp only [daysBeforeMonth, daysInMonth]
  by_cases h : isLeapYear y = true <;> simp [h, List.range_succ]

theorem isLeapYear_iff (y : Nat) :
    isLeapYear y = true ↔ y % 4 = 0 ∧ (y % 100 ≠ 0 ∨ y % 400 = 0) := by
  simp [isLeapYear]

theorem daysBeforeYear_succ (y : Nat) :
    daysBeforeYear (y + 1) = daysBeforeYear y + 365 + (if isLeapYear y = true then 1 else 0) := by
  have e4 : (y + 1 + 3) / 4 = (y + 3) / 4 + (if y % 4 = 0 then 1 else 0) := by
    split_ifs <;> omega
  have e100 : (y + 1 + 99) / 100 = (y + 99) / 100 + (if y % 100 = 0 then 1 else 0) := by
    split_ifs <;> omega
  have e400 : (y + 1 + 399) / 400 = (y + 399) / 400 + (if y % 400 = 0 then 1 else 0) := by
    split_ifs <;> omega
  have hle : (y + 99) / 100 ≤ (y + 3) / 4 := by omega
  have h1 : y % 100 = 0 → y % 4 = 0 := by omega
  have h2 : y % 400 = 0 → y % 100 = 0 := by omega
  have hleap := isLeapYear_iff y
  unfold daysBeforeYear
  rw [e4, e100, e400]
  generalize (y + 3) / 4 = c4 at hle ⊢
  generalize (y + 99) / 100 = c100 at hle ⊢
  generalize (y + 399) / 400 = c400
  by_cases a4 : y % 4 = 0 <;> by_cases a100 : y % 100 = 0 <;> by_cases a400 : y % 400 = 0 <;>
    simp only [a4, a100, a400, hleap, if_true, if_false, ne_eq, not_true_eq_false,
      not_false_eq_true, or_true, or_false, and_true, and_false, true_and, false_and,
      or_self] <;>
    omega

theorem daysBeforeYear_mono (y1 y2 : Nat) (h : y1 ≤ y2) : daysBeforeYear y1 ≤ daysBeforeYear y2 := by
  induction y2 with
  | zero =>
    have : y1 = 0 := by omega
    subst this
    exact le_refl _
  | succ n ih =>
    rcases Nat.lt_or_ge y1 (n + 1) with hlt | hge
    · have := ih (by omega)
      rw [daysBeforeYear_succ]
      omega
    · have : y1 = n + 1 := by omega
      subst this
      exact le_refl _

theorem dayOfYear_le (y m d : Nat) (hm1 : 1 ≤ m) (hm : m ≤ 12) (hd : d ≤ daysInMonth y m) :
    daysBeforeMonth y m + d ≤ 365 + (if isLeapYear y = true then 1 else 0) := by
  rw [← daysBeforeMonth_thirteen]
  have := daysBeforeMonth_mono y m hm1 13 (by omega)
  omega

theorem dayNumber_lt (t1 t2 : IsoDigits) (h1 : t1.valid) (h2 : t2.valid)
    (h : t1.year < t2.year ∨ (t1.year = t2.year ∧
      (t1.month < t2.month ∨ (t1.month = t2.month ∧ t1.day < t2.day)))) :
    t1.dayNumber < t2.dayNumber := by
  obtain ⟨-, a1, a2, a3, a4, -⟩ := h1
  obtain ⟨-, b1, b2, b3, b4, -⟩ := h2
  unfold IsoDigits.dayNumber
  rcases h with hy | ⟨hy, hm | ⟨hm, hd⟩⟩
  · have e1 := dayOfYear_le t1.year t1.month t1.day a1 a2 a4
    have e2 := daysBeforeYear_succ t1.year
    have e3 := daysBeforeYear_mono (t1.year + 1) t2.year hy
    omega
  · have e1 := daysBeforeMonth_mono t1.year t1.month a1 t2.month hm
    rw [hy] at e1 a4 ⊢
    omega
  · rw [hy, hm]
    omega

theorem dayNumber_order (t1 t2 : IsoDigits) (h1 : t1.valid) (h2 : t2.valid) :
    (t1.dayNumber < t2.dayNumber ↔
      (t1.year < t2.year ∨ (t1.year = t2.year ∧
        (t1.month < t2.month ∨ (t1.month = t2.month ∧ t1.day < t2.day))))) ∧
    (t1.dayNumber = t2.dayNumber ↔
      (t1.year = t2.year ∧ t1.month = t2.month ∧ t1.day = t2.day)) := by
  have hlt := dayNumber_lt t1 t2 h1 h2
  have hgt := dayNumber_lt t2 t1 h2 h1
  have heq : t1.year = t2.year ∧ t1.month = t2.month ∧ t1.day = t2.day →
      t1.dayNumber = t2.dayNumber := by
    rintro ⟨e1, e2, e3⟩
    simp only [IsoDigits.dayNumber, e1, e2, e3]
  constructor
  · constructor
    · intro h
      by_contra hcon
      have : t1.year = t2.year ∧ t1.month = t2.month ∧ t1.day = t2.day ∨
          (t2.year < t1.year ∨ (t2.year = t1.year ∧
            (t2.month < t1.month ∨ (t2.month = t1.month ∧ t2.day < t1.day)))) := by omega
      rcases this with h3 | h3
      · have := heq h3; omega
      · have := hgt h3; omega
    · exact hlt
  · constructor
    · intro h
      by_contra hcon
      have : (t1.year < t2.year ∨ (t1.year = t2.year ∧
          (t1.month < t2.month ∨ (t1.month = t2.month ∧ t1.day < t2.day)))) ∨
          (t2.year < t1.year ∨ (t2.year = t1.year ∧
            (t2.month < t1.month ∨ (t2.month = t1.month ∧ t2.day < t1.day)))) := by omega
      rcases this with h3 | h3
      · have := hlt h3; omega
      · have := hgt h3; omega
    · exact heq

theorem precedes_nil : ¬ (lexLe [] [] = true ∧ ¬ lexLe [] [] = true) := by
  simp [lexLe]

theorem precedes_cons (a b : Nat) (as bs : List Nat) :
    (lexLe (a :: as) (b :: bs) = true ∧ ¬ lexLe (b :: bs) (a :: as) = true) ↔
      a < b ∨ (a = b ∧ (lexLe as bs = true ∧ ¬ lexLe bs as = true)) := by
  rw [lexLe_cons, lexLe_cons]
  constructor
  · rintro ⟨h1 | ⟨h1, h1t⟩, h2⟩
    · exact Or.inl h1
    · exact Or.inr ⟨h1, h1t, fun h => h2 (Or.inr ⟨h1.symm, h⟩)⟩
  · rintro (h | ⟨h, h1, h2⟩)
    · exact ⟨Or.inl h, by rintro (h3 | ⟨h3, -⟩) <;> omega⟩
    · refine ⟨Or.inr ⟨h, h1⟩, ?_⟩
      rintro (h3 | ⟨-, h3⟩)
      · omega
      · exact h2 h3

theorem digit_bounds (c : Char) (hc : c.isDigit = true) : 48 ≤ c.toNat ∧ c.toNat ≤ 57 := by
  simp only [Char.isDigit, Bool.and_eq_true, decide_eq_true_eq] at hc
  exact ⟨hc.1, hc.2⟩

theorem utf16_digit (c : Char) (hc : c.isDigit = true) : utf16 c = [c.toNat] := by
  have := (digit_bounds c hc).2
  unfold utf16
  rw [if_pos (by omega)]

theorem filename_units (t : IsoDigits) (h : t.wellFormed) :
    codeUnits (createFilename t.toISOString) =
      [t.y1.toNat, t.y2.toNat, t.y3.toNat, t.y4.toNat, 45, t.mo1.toNat, t.mo2.toNat, 45,
        t.d1.toNat, t.d2.toNat, 84, t.h1.toNat, t.h2.toNat, 45, t.mi1.toNat, t.mi2.toNat, 45,
        t.s1.toNat, t.s2.toNat, 45, t.ms1.toNat, t.ms2.toNat, t.ms3.toNat, 90,
        46, 112, 110, 103] := by
  have hc := cleanTimestamp_iso t h
  obtain ⟨⟨a1, a2, a3, a4⟩, ⟨b1, b2, b3, b4⟩, ⟨c1, c2, c3, c4⟩, ⟨e1, e2⟩, f1, f2, f3⟩ := h
  have u1 : utf16 '-' = [45] := by decide
  have u2 : utf16 'T' = [84] := by decide
  have u3 : utf16 'Z' = [90] := by decide
  have u4 : codeUnits PNG = [46, 112, 110, 103] := by decide
  simp only [createFilename, List.nil_append, hc]
  unfold codeUnits at u4 ⊢
  rw [List.flatMap_append, u4]
  simp only [IsoDigits.dashed, IsoDigits.date, List.cons_append, List.nil_append,
    List.flatMap_cons, List.flatMap_nil, utf16_digit _ a1, utf16_digit _ a2, utf16_digit _ a3,
    utf16_digit _ a4, utf16_digit _ b1, utf16_digit _ b2, utf16_digit _ b3, utf16_digit _ b4,
    utf16_digit _ c1, utf16_digit _ c2, utf16_digit _ c3, utf16_digit _ c4, utf16_digit _ e1,
    utf16_digit _ e2, utf16_digit _ f1, utf16_digit _ f2, utf16_digit _ f3, u1, u2, u3,
    List.append_nil]

theorem lex_two (a b p q : Char) (X : Prop) (ha : a.isDigit = true) (hb : b.isDigit = true)
    (hp : p.isDigit = true) (hq : q.isDigit = true) :
    (a.toNat < p.toNat ∨ (a.toNat = p.toNat ∧ (b.toNat < q.toNat ∨ (b.toNat = q.toNat ∧ X)))) ↔
      (digitsValue [a, b] < digitsValue [p, q] ∨ (digitsValue [a, b] = digitsValue [p, q] ∧ X)) := by
  have A := digit_bounds _ ha
  have B := digit_bounds _ hb
  have P := digit_bounds _ hp
  have Q := digit_bounds _ hq
  simp only [digitsValue, List.foldl]
  by_cases hX : X <;> simp only [hX, and_true, and_false, or_false] <;> omega

theorem lex_three (a b c p q r : Char) (X : Prop) (ha : a.isDigit = true)
    (hb : b.isDigit = true) (hc : c.isDigit = true) (hp : p.isDigit = true)
    (hq : q.isDigit = true) (hr : r.isDigit = true) :
    (a.toNat < p.toNat ∨ (a.toNat = p.toNat ∧ (b.toNat < q.toNat ∨ (b.toNat = q.toNat ∧
      (c.toNat < r.toNat ∨ (c.toNat = r.toNat ∧ X)))))) ↔
      (digitsValue [a, b, c] < digitsValue [p, q, r] ∨
        (digitsValue [a, b, c] = digitsValue [p, q, r] ∧ X)) := by
  have A := digit_bounds _ ha
  have B := digit_bounds _ hb
  have C := digit_bounds _ hc
  have P := digit_bounds _ hp
  have Q := digit_bounds _ hq
  have R := digit_bounds _ hr
  simp only [digitsValue, List.foldl]
  by_cases hX : X <;> simp only [hX, and_true, and_false, or_false] <;> omega

theorem lex_four (a b c d p q r s : Char) (X : Prop) (ha : a.isDigit = true)
    (hb : b.isDigit = true) (hc : c.isDigit = true) (hd : d.isDigit = true)
    (hp : p.isDigit = true) (hq : q.isDigit = true) (hr : r.isDigit = true)
    (hs : s.isDigit = true) :
    (a.toNat < p.toNat ∨ (a.toNat = p.toNat ∧ (b.toNat < q.toNat ∨ (b.toNat = q.toNat ∧
      (c.toNat < r.toNat ∨ (c.toNat = r.toNat ∧
        (d.toNat < s.toNat ∨ (d.toNat = s.toNat ∧ X)))))))) ↔
      (digitsValue [a, b, c, d] < digitsValue [p, q, r, s] ∨
        (digitsValue [a, b, c, d] = digitsValue [p, q, r, s] ∧ X)) := by
  have A := digit_bounds _ ha
  have B := digit_bounds _ hb
  have C := digit_bounds _ hc
  have D := digit_bounds _ hd
  have P := digit_bounds _ hp
  have Q := digit_bounds _ hq
  have R := digit_bounds _ hr
  have S := digit_bounds _ hs
  simp only [digitsValue, List.foldl]
  by_cases hX : X <;> simp only [hX, and_true, and_false, or_false] <;> omega

theorem precedes_single_iff (t1 t2 : IsoDigits) (h1 : t1.wellFormed) (h2 : t2.wellFormed) :
    precedes (createFilename t1.toISOString) (createFilename t2.toISOString) ↔
      (t1.year < t2.year ∨ (t1.year = t2.year ∧
      (t1.month < t2.month ∨ (t1.month = t2.month ∧
      (t1.day < t2.day ∨ (t1.day = t2.day ∧
      (t1.hour < t2.hour ∨ (t1.hour = t2.hour ∧
      (t1.minute < t2.minute ∨ (t1.minute = t2.minute ∧
      (t1.second < t2.second ∨ (t1.second = t2.second ∧
        t1.millisecond < t2.millisecond)))))))))))) := by
  unfold precedes sortLe
  rw [filename_units t1 h1, filename_units t2 h2]
  simp only [precedes_cons, precedes_nil, lt_self_iff_false, true_and, false_or, and_false,
    or_false]
  obtain ⟨⟨a1, a2, a3, a4⟩, ⟨b1, b2, b3, b4⟩, ⟨c1, c2, c3, c4⟩, ⟨e1, e2⟩, f1, f2, f3⟩ := h1
  obtain ⟨⟨p1, p2, p3, p4⟩, ⟨q1, q2, q3, q4⟩, ⟨r1, r2, r3, r4⟩, ⟨s1, s2⟩, u1, u2, u3⟩ := h2
  have hms : (t1.ms1.toNat < t2.ms1.toNat ∨ (t1.ms1.toNat = t2.ms1.toNat ∧
      (t1.ms2.toNat < t2.ms2.toNat ∨ (t1.ms2.toNat = t2.ms2.toNat ∧
        t1.ms3.toNat < t2.ms3.toNat)))) ↔ t1.millisecond < t2.millisecond := by
    have := lex_three t1.ms1 t1.ms2 t1.ms3 t2.ms1 t2.ms2 t2.ms3 False f1 f2 f3 u1 u2 u3
    simpa only [and_false, or_false] using this
  rw [lex_four _ _ _ _ _ _ _ _ _ a1 a2 a3 a4 p1 p2 p3 p4, lex_two _ _ _ _ _ b1 b2 q1 q2,
    lex_two _ _ _ _ _ b3 b4 q3 q4, lex_two _ _ _ _ _ c1 c2 r1 r2,
    lex_two _ _ _ _ _ c3 c4 r3 r4, lex_two _ _ _ _ _ e1 e2 s1 s2, hms]
  rfl

theorem millisecond_lt (t : IsoDigits) (h : t.wellFormed) : t.millisecond < 1000 := by
  obtain ⟨-, -, -, -, f1, f2, f3⟩ := h
  have F1 := digit_bounds _ f1
  have F2 := digit_bounds _ f2
  have F3 := digit_bounds _ f3
  simp only [IsoDigits.millisecond, digitsValue, List.foldl]
  omega

theorem timeValue_lt_iff (t1 t2 : IsoDigits) (h1 : t1.valid) (h2 : t2.valid) :
    t1.timeValue < t2.timeValue ↔
      (t1.year < t2.year ∨ (t1.year = t2.year ∧
      (t1.month < t2.month ∨ (t1.month = t2.month ∧
      (t1.day < t2.day ∨ (t1.day = t2.day ∧
      (t1.hour < t2.hour ∨ (t1.hour = t2.hour ∧
      (t1.minute < t2.minute ∨ (t1.minute = t2.minute ∧
      (t1.second < t2.second ∨ (t1.second = t2.second ∧
        t1.millisecond < t2.millisecond)))))))))))) := by
  obtain ⟨hd1, hd2⟩ := dayNumber_order t1 t2 h1 h2
  have m1 := millisecond_lt t1 h1.1
  have m2 := millisecond_lt t2 h2.1
  obtain ⟨-, -, -, -, -, a5, a6, a7⟩ := h1
  obtain ⟨-, -, -, -, -, b5, b6, b7⟩ := h2
  unfold IsoDigits.timeValue
  generalize t1.dayNumber = D1 at hd1 hd2 ⊢
  generalize t2.dayNumber = D2 at hd1 hd2 ⊢
  generalize t1.year = y1 at hd1 hd2 ⊢
  generalize t2.year = y2 at hd1 hd2 ⊢
  generalize t1.month = mo1 at hd1 hd2 ⊢
  generalize t2.month = mo2 at hd1 hd2 ⊢
  generalize t1.day = d1 at hd1 hd2 ⊢
  generalize t2.day = d2 at hd1 hd2 ⊢
  generalize t1.hour = hh1 at a5 ⊢
  generalize t2.hour = hh2 at b5 ⊢
  generalize t1.minute = mi1 at a6 ⊢
  generalize t2.minute = mi2 at b6 ⊢
  generalize t1.second = s1 at a7 ⊢
  generalize t2.second = s2 at b7 ⊢
  generalize t1.millisecond = ms1 at m1 ⊢
  generalize t2.millisecond = ms2 at m2 ⊢
  omega

theorem lexLe_append_same (c : List Nat) (a b : List Nat) :
    lexLe (c ++ a) (c ++ b) = lexLe a b := by
  induction c with
  | nil => rfl
  | cons x c ih =>
    have : (lexLe (x :: (c ++ a)) (x :: (c ++ b)) = true) ↔ lexLe (c ++ a) (c ++ b) = true := by
      rw [lexLe_cons]; simp
    rw [List.cons_append, List.cons_append, Bool.eq_iff_iff, this, ih]

theorem lexLe_digits_sep (p : List Nat) (hp : ∀ x ∈ p, 48 ≤ x) :
    ∀ (q : List Nat), (∀ x ∈ q, 48 ≤ x) → p ≠ q → ∀ x y : List Nat,
      (lexLe (p ++ 45 :: x) (q ++ 45 :: y) = true ↔ lexLe p q = true) := by
  induction p with
  | nil =>
    intro q hq hne x y
    cases q with
    | nil => exact absurd rfl hne
    | cons b q =>
      have hb := hq b (List.mem_cons_self _ _)
      rw [List.nil_append, List.cons_append, lexLe_cons]
      simp only [lexLe, iff_true]
      left; omega
  | cons a p ih =>
    intro q hq hne x y
    have ha := hp a (List.mem_cons_self _ _)
    cases q with
    | nil =>
      rw [List.nil_append, List.cons_append, lexLe_cons]
      simp only [lexLe, Bool.false_eq_true, iff_false]
      omega
    | cons b q =>
      rw [List.cons_append, List.cons_append, lexLe_cons, lexLe_cons]
      by_cases hab : a = b
      · subst hab
        have hne2 : p ≠ q := fun e => hne (by rw [e])
        rw [ih (fun x hx => hp x (List.mem_cons_of_mem _ hx)) q
          (fun x hx => hq x (List.mem_cons_of_mem _ hx)) hne2 x y]
      · constructor
        · rintro (h | ⟨h, -⟩)
          · exact Or.inl h
          · exact absurd h hab
        · rintro (h | ⟨h, -⟩)
          · exact Or.inl h
          · exact absurd h hab

theorem codeUnits_append (a b : Str) : codeUnits (a ++ b) = codeUnits a ++ codeUnits b := by
  simp [codeUnits]

theorem codeUnits_digits (ds : Str) (h : ∀ c ∈ ds, c.isDigit = true) :
    codeUnits ds = ds.map Char.toNat ∧ ∀ x ∈ codeUnits ds, 48 ≤ x := by
  induction ds with
  | nil => exact ⟨rfl, by simp [codeUnits]⟩
  | cons c ds ih =>
    have hc := h c (List.mem_cons_self _ _)
    obtain ⟨ih1, ih2⟩ := ih (fun x hx => h x (List.mem_cons_of_mem _ hx))
    have hcu : codeUnits (c :: ds) = c.toNat :: codeUnits ds := by
      simp [codeUnits, utf16_digit c hc]
    rw [hcu]
    refine ⟨by rw [ih1]; rfl, ?_⟩
    intro x hx
    rcases List.mem_cons.mp hx with rfl | hx
    · exact (digit_bounds c hc).1
    · exact ih2 x hx

theorem char_toNat_injective : Function.Injective Char.toNat := by
  intro a b h
  rw [← Char.ofNat_toNat a, ← Char.ofNat_toNat b, h]

theorem batch_units (i : Nat) (a : Str) :
    codeUnits (createFilename a (batchPrefix i)) =
      codeUnits BATCH ++ (codeUnits (decimal i) ++ 45 :: codeUnits (cleanTimestamp a ++ PNG)) := by
  have u : codeUnits ['-'] = [45] := by decide
  have e : createFilename a (batchPrefix i) =
      BATCH ++ (decimal i ++ (['-'] ++ (cleanTimestamp a ++ PNG))) := by
    simp only [createFilename, batchPrefix, List.append_assoc]
  rw [e, codeUnits_append, codeUnits_append, codeUnits_append, u]
  rfl

theorem sortLe_batch_iff (i j : Nat) (a b : Str) (hij : i ≠ j) :
    sortLe (createFilename a (batchPrefix i)) (createFilename b (batchPrefix j)) ↔
      sortLe (decimal i) (decimal j) := by
  obtain ⟨hi1, hi2⟩ := codeUnits_digits (decimal i) (decimal_isDigit i)
  obtain ⟨hj1, hj2⟩ := codeUnits_digits (decimal j) (decimal_isDigit j)
  have hne : codeUnits (decimal i) ≠ codeUnits (decimal j) := by
    rw [hi1, hj1]
    intro e
    exact hij (decimal_injective (List.map_injective_iff.mpr char_toNat_injective e))
  unfold sortLe
  rw [batch_units, batch_units, lexLe_append_same]
  exact lexLe_digits_sep _ hi2 _ hj2 hne _ _

theorem precedes_batch_iff (i j : Nat) (a b : Str) (hij : i ≠ j) :
    precedes (createFilename a (batchPrefix i)) (createFilename b (batchPrefix j)) ↔
      precedes (decimal i) (decimal j) := by
  unfold precedes
  rw [sortLe_batch_iff i j a b hij, sortLe_batch_iff j i b a (Ne.symm hij)]

theorem sorted_index_lt (l : List Str) (hs : l.Sorted sortLe) (a b : Str) (i j : Nat)
    (hi : l[i]? = some a) (hj : l[j]? = some b) (hab : precedes a b) : i < j := by
  obtain ⟨hi1, hi2⟩ := List.getElem?_eq_some_iff.mp hi
  obtain ⟨hj1, hj2⟩ := List.getElem?_eq_some_iff.mp hj
  by_contra hcon
  rcases Nat.lt_or_ge j i with hlt | hge
  · have := (List.pairwise_iff_getElem.mp hs) j i hj1 hi1 hlt
    rw [hi2, hj2] at this
    exact hab.2 this
  · have hij : i = j := by omega
    subst hij
    rw [hi2] at hj2
    subst hj2
    exact hab.2 hab.1

/-- C11: the order of the listing. `getQRCodeFiles` returns the names sorted
by code units. For two instants `t1`, `t2` as `toISOString` writes them,
`t1` is earlier than `t2` exactly when `createFilename(t1)` comes before
`createFilename(t2)` in that order, so in the list returned the file of the
earlier instant stands first. Batch filenames with different indices are
ordered as the decimal texts of their indices are, whatever their timestamps,
not as the numbers: `batch-10-…` comes before `batch-2-…`. -/
theorem getQRCodeFiles_chronological (t1 t2 : IsoDigits) (h1 : t1.valid) (h2 : t2.valid) :
    (t1.timeValue < t2.timeValue ↔
      precedes (createFilename t1.toISOString) (createFilename t2.toISOString)) ∧
    (∀ (w : World) (l : List Str), getQRCodeFiles w = .ok l → l.Sorted sortLe) ∧
    (∀ (w : World) (l : List Str) (i j : Nat), getQRCodeFiles w = .ok l →
      l[i]? = some (createFilename t1.toISOString) →
      l[j]? = some (createFilename t2.toISOString) →
      t1.timeValue < t2.timeValue → i < j) ∧
    (∀ (i j : Nat) (a b : Str), i ≠ j →
      (precedes (createFilename a (batchPrefix i)) (createFilename b (batchPrefix j)) ↔
        precedes (decimal i) (decimal j))) ∧
    (∀ a b : Str,
      precedes (createFilename a (batchPrefix 10)) (createFilename b (batchPrefix 2))) := by
  have hiff : t1.timeValue < t2.timeValue ↔
      precedes (createFilename t1.toISOString) (createFilename t2.toISOString) := by
    rw [timeValue_lt_iff t1 t2 h1 h2, precedes_single_iff t1 t2 h1.1 h2.1]
  refine ⟨hiff, fun w l h => (getQRCodeFiles_sorted w l h).1, ?_,
    fun i j a b hij => precedes_batch_iff i j a b hij, ?_⟩
  · intro w l i j hl hi hj hlt
    exact sorted_index_lt l (getQRCodeFiles_sorted w l hl).1 _ _ i j hi hj (hiff.mp hlt)
  · intro a b
    rw [precedes_batch_iff 10 2 a b (by decide)]
    decide

theorem getQRCodeFiles_chronological_witness :
    demoInstant.valid ∧ demoLater.valid ∧ demoInstant.timeValue < demoLater.timeValue ∧
    precedes (createFilename demoInstant.toISOString) (createFilename demoLater.toISOString) :=
  ⟨by decide, by decide, by decide,
    (getQRCodeFiles_chronological demoInstant demoLater (by decide) (by decide)).1.mp
      (by decide)⟩

/-! ## Files that fail to draw -/

theorem checks_idempotent (g : Geometry) (c : Cursor) (hR : 1 ≤ g.itemsPerRow)
    (hP : 1 ≤ g.itemsPerPage) :
    newPageCheck g (newRowCheck g (newPageCheck g c).1) =
        (newRowCheck g (newPageCheck g c).1, false) ∧
      newRowCheck g (newRowCheck g (newPageCheck g c).1) = newRowCheck g (newPageCheck g c).1 := by
  by_cases h1 : (c.itemsInCurrentPage : Int) ≥ g.itemsPerPage
  · have e1 : (newPageCheck g c).1 = ⟨g.left, g.top, 0, 0⟩ := by
      simp only [newPageCheck, if_pos h1]
    have e2 : newRowCheck g ⟨g.left, g.top, 0, 0⟩ = ⟨g.left, g.top, 0, 0⟩ := by
      simp only [newRowCheck]
      rw [if_neg (by simp only [Nat.cast_zero]; omega)]
    have e3 : newPageCheck g ⟨g.left, g.top, 0, 0⟩ = (⟨g.left, g.top, 0, 0⟩, false) := by
      simp only [newPageCheck]
      rw [if_neg (by simp only [Nat.cast_zero]; omega)]
    rw [e1, e2, e3, e2]
    exact ⟨rfl, rfl⟩
  · have e1 : (newPageCheck g c).1 = c := by
      simp only [newPageCheck, if_neg h1]
    rw [e1]
    by_cases h2 : (c.itemsInCurrentRow : Int) ≥ g.itemsPerRow
    · have e2 : newRowCheck g c =
          ⟨g.left, c.currentY + g.itemHeight, 0, c.itemsInCurrentPage⟩ := by
        simp only [newRowCheck, if_pos h2]
      rw [e2]
      constructor
      · simp only [newPageCheck]
        rw [if_neg h1]
      · simp only [newRowCheck]
        rw [if_neg (by simp only [Nat.cast_zero]; omega)]
    · have e2 : newRowCheck g c = c := by
        simp only [newRowCheck, if_neg h2]
      rw [e2]
      exact ⟨by simp only [newPageCheck, if_neg h1], e2⟩

theorem placeItem_normal (rt : Runtime) (g : Geometry) (c : Cursor) (f : Str)
    (hR : 1 ≤ g.itemsPerRow) (hP : 1 ≤ g.itemsPerPage) :
    (placeItem rt g c f).1 = (placeItem rt g (newRowCheck g (newPageCheck g c).1) f).1 ∧
      (placeItem rt g c f).2 = (if (newPageCheck g c).2 then [DocOp.addPage] else []) ++
        (placeItem rt g (newRowCheck g (newPageCheck g c).1) f).2 := by
  obtain ⟨e1, e2⟩ := checks_idempotent g c hR hP
  unfold placeItem
  simp only [e1, e2]
  by_cases hd : rt.canDraw f = true
  · simp [hd]
  · simp [hd]

theorem placeItem_failed (rt : Runtime) (g : Geometry) (c : Cursor) (f : Str)
    (hd : rt.canDraw f = false) :
    (placeItem rt g c f).1 = newRowCheck g (newPageCheck g c).1 ∧
      (placeItem rt g c f).2 = (if (newPageCheck g c).2 then [DocOp.addPage] else []) := by
  unfold placeItem
  simp [hd]

theorem placements_pageOps (page : Nat) (b : Bool) :
    placements page (if b then [DocOp.addPage] else []) = [] := by
  cases b <;> rfl

theorem placements_append (A : List DocOp) :
    ∀ (page : Nat) (B : List DocOp),
      placements page (A ++ B) =
        placements page A ++ placements (page + A.count DocOp.addPage) B := by
  induction A with
  | nil => intro page B; simp [placements]
  | cons op A ih =>
    intro page B
    cases op with
    | addPage =>
      rw [List.cons_append, placements, placements, ih, List.count_cons_self,
        show page + 1 + List.count DocOp.addPage A = page + (List.count DocOp.addPage A + 1) by
          omega]
    | image p x y s =>
      rw [List.cons_append, placements, placements, ih, List.count_cons_of_ne (by simp),
        List.cons_append]
    | title n s =>
      rw [List.cons_append, placements, placements, ih, List.count_cons_of_ne (by simp)]
    | caption n s x y w =>
      rw [List.cons_append, placements, placements, ih, List.count_cons_of_ne (by simp)]

theorem placements_normal (rt : Runtime) (g : Geometry) (hR : 1 ≤ g.itemsPerRow)
    (hP : 1 ≤ g.itemsPerPage) (files : List Str) (c : Cursor) (page : Nat) :
    placements page ((if (newPageCheck g c).2 then [DocOp.addPage] else []) ++
        (placementLoop rt g (newRowCheck g (newPageCheck g c).1) files).1.flatten) =
      placements page (placementLoop rt g c files).1.flatten := by
  cases files with
  | nil =>
    simp only [placementLoop, List.flatten_nil, List.append_nil, placements_pageOps]
    rfl
  | cons f rest =>
    obtain ⟨e1, e2⟩ := placeItem_normal rt g c f hR hP
    rw [placementLoop_cons, placementLoop_cons, List.flatten_cons, List.flatten_cons, e2, ← e1,
      List.append_assoc]

theorem placements_filter (rt : Runtime) (g : Geometry) (hR : 1 ≤ g.itemsPerRow)
    (hP : 1 ≤ g.itemsPerPage) (files : List Str) :
    ∀ (c : Cursor) (page : Nat),
      placements page (placementLoop rt g c files).1.flatten =
        placements page (placementLoop rt g c (files.filter rt.canDraw)).1.flatten := by
  induction files with
  | nil => intro c page; rfl
  | cons f rest ih =>
    intro c page
    by_cases hd : rt.canDraw f = true
    · rw [List.filter_cons_of_pos hd, placementLoop_cons, placementLoop_cons,
        List.flatten_cons, List.flatten_cons, placements_append, placements_append, ih]
    · have hd2 : rt.canDraw f = false := by simpa using hd
      obtain ⟨e1, e2⟩ := placeItem_failed rt g c f hd2
      rw [List.filter_cons_of_neg hd, placementLoop_cons, List.flatten_cons, e1, e2,
        placements_normal rt g hR hP rest c page, ih]

theorem itemsPerPage_pos (g : Geometry) (hrow : 1 ≤ g.itemsPerRow) (hrows : 1 ≤ g.rowsPerPage) :
    1 ≤ g.itemsPerPage := by
  unfold Geometry.itemsPerPage
  nlinarith

/-- C12: the placement loop tolerates files that fail to draw. For a grid
with at least one item per row and one row per page, any list of files and
any set of files whose draw fails: the loop makes one pass per file and
`generateQRCodesPDF` returns the output path; a pass whose draw fails draws
nothing and increases none of `currentX`, `itemsInCurrentRow`,
`itemsInCurrentPage` (the two boundary tests run before the draw, so they may
reset them; away from a boundary the cursor is unchanged); and every image
that is drawn is on the same page and at the same coordinates as in the run
over the list without the failing files. -/
theorem placementLoop_skips_failures (rt : Runtime) (g : Geometry) (files : List Str)
    (hrow : 1 ≤ g.itemsPerRow) (hrows : 1 ≤ g.rowsPerPage) :
    (placementLoop rt g (freshCursor g) files).1.length = files.length ∧
    (∀ w : World, getQRCodeFiles w = .ok files → files ≠ [] →
      (generateQRCodesPDF rt g w).1 = .ok (rt.join OUTPUT_FOLDER PDF_FILENAME)) ∧
    (∀ (c : Cursor) (f : Str), rt.canDraw f = false →
      (placeItem rt g c f).1.itemsInCurrentRow ≤ c.itemsInCurrentRow ∧
      (placeItem rt g c f).1.itemsInCurrentPage ≤ c.itemsInCurrentPage ∧
      ((placeItem rt g c f).1.currentX = c.currentX ∨
        (placeItem rt g c f).1.currentX = g.left) ∧
      (∀ op ∈ (placeItem rt g c f).2, op = DocOp.addPage) ∧
      ((c.itemsInCurrentPage : Int) < g.itemsPerPage →
        (c.itemsInCurrentRow : Int) < g.itemsPerRow → placeItem rt g c f = (c, []))) ∧
    placements 0 (placementLoop rt g (freshCursor g) files).1.flatten =
      placements 0 (placementLoop rt g (freshCursor g) (files.filter rt.canDraw)).1.flatten := by
  refine ⟨placementLoop_length rt g files _, ?_, ?_,
    placements_filter rt g hrow (itemsPerPage_pos g hrow hrows) files _ 0⟩
  · intro w hl hne
    rw [generateQRCodesPDF_eq rt g w files hl hne]
  · intro c f hd
    obtain ⟨e1, e2⟩ := placeItem_failed rt g c f hd
    have hcur : (placeItem rt g c f) = ((placeItem rt g c f).1, (placeItem rt g c f).2) := rfl
    rw [hcur, e1, e2]
    by_cases h1 : (c.itemsInCurrentPage : Int) ≥ g.itemsPerPage
    · have p1 : newPageCheck g c = (⟨g.left, g.top, 0, 0⟩, true) := by
        simp only [newPageCheck, if_pos h1]
      rw [p1]
      refine ⟨?_, ?_, ?_, ?_, fun h => absurd h1 (by omega)⟩
      · unfold newRowCheck; split <;> exact Nat.zero_le _
      · unfold newRowCheck; split <;> exact Nat.zero_le _
      · right; unfold newRowCheck; split <;> rfl
      · intro op hop; simpa using hop
    · have p1 : newPageCheck g c = (c, false) := by
        simp only [newPageCheck, if_neg h1]
      rw [p1]
      by_cases h2 : (c.itemsInCurrentRow : Int) ≥ g.itemsPerRow
      · have p2 : newRowCheck g c =
            ⟨g.left, c.currentY + g.itemHeight, 0, c.itemsInCurrentPage⟩ := by
          simp only [newRowCheck, if_pos h2]
        simp only [p2]
        exact ⟨Nat.zero_le _, le_refl _, Or.inr trivial, fun op hop => by simp at hop,
          fun _ h => absurd h2 (by omega)⟩
      · have p2 : newRowCheck g c = c := by
          simp only [newRowCheck, if_neg h2]
        simp only [p2]
        exact ⟨le_refl _, le_refl _, Or.inl trivial, fun op hop => by simp at hop,
          fun _ _ => by simp⟩

theorem placementLoop_skips_failures_witness :
    1 ≤ (A4 62).itemsPerRow ∧ 1 ≤ (A4 62).rowsPerPage ∧
    demoFiles.filter flakyRuntime.canDraw =
      [['a', '.', 'p', 'n', 'g'], ['c', '.', 'p', 'n', 'g']] ∧
    placements 0 (placementLoop flakyRuntime (A4 62) (freshCursor (A4 62)) demoFiles).1.flatten =
      placements 0 (placementLoop flakyRuntime (A4 62) (freshCursor (A4 62))
        (demoFiles.filter flakyRuntime.canDraw)).1.flatten := by
  obtain ⟨hr, hp, -⟩ := A4_grid 62
  exact ⟨by rw [hr]; decide, by rw [hp]; decide, by decide,
    (placementLoop_skips_failures flakyRuntime (A4 62) demoFiles (by rw [hr]; decide)
      (by rw [hp]; decide)).2.2.2⟩

/-! ## The closed form of the cursor -/

end QRGen
